import Mathlib

/-!
Verification of the `PostgresCrudService` layer of okanjo-app-pg: the
criteria-to-SQL compiler (`_buildCriteria`), the soft-delete concealment
merge used by `find`, `count`, `bulkUpdate`, `bulkDelete` and
`bulkDeletePermanently`, and the single-row operations `retrieve`,
`update`, `delete`, `deletePermanently`.  Definitions below are a shallow
embedding of `PostgresCrudService.js`.
-/

namespace OkanjoPg

/-- Driver-native JS values that can appear in rows, criteria and the
positional argument vector.  `objV` models a JS array or plain object
pushed where a scalar bind parameter was expected (the source does this
when a structured status filter is composited into the concealment
clause). -/
inductive Value where
  | str (s : String)
  | num (n : Int)
  | bool (b : Bool)
  | date (t : Nat)
  | buffer (bytes : List Nat)
  | null
  | objV
deriving DecidableEq

/-- JS truthiness of a value (`if (v)`). -/
def jsTruthy : Value → Bool
  | .str s => !s.isEmpty
  | .num n => n != 0
  | .bool b => b
  | .date _ => true
  | .buffer _ => true
  | .null => false
  | .objV => true

/-- Operand of a `$ne` operator: the README's operator grammar allows a
scalar (`field != value`) or an array (`field NOT IN (values...)`); the
source compiles it by recursing into `_buildCriteria` with the polarity
flipped, which on these two shapes lands in the scalar / array branches. -/
inductive NeVal where
  | scalar (v : Value)
  | arr (vs : List Value)
deriving DecidableEq

/-- JS truthiness of a `$ne` operand (`if (value.$ne)`): arrays are
always truthy, scalars by value. -/
def neTruthy : NeVal → Bool
  | .scalar v => jsTruthy v
  | .arr _ => true

/-- A value position in a criteria object: a scalar, an array (membership
test), or an operator object with the keys recognized by `_buildCriteria`
(`$ne`, `$gt`, `$gte`, `$lt`, `$lte`, `$eqi`, `$nei`).  Dates and buffers
are `Value` scalars, so they are never treated as operator objects,
exactly as the source's `instanceof Date` / `Buffer.isBuffer` guards
ensure. -/
inductive CritValue where
  | scalar (v : Value)
  | arr (vs : List Value)
  | obj (ne : Option NeVal) (gt gte lt lte eqi nei : Option Value)
deriving DecidableEq

/-- JS truthiness of a criteria entry: arrays and objects are always
truthy, scalars by value. -/
def critTruthy : CritValue → Bool
  | .scalar v => jsTruthy v
  | .arr _ => true
  | .obj _ _ _ _ _ _ _ => true

/-- The value that lands in the argument vector when a criteria entry is
pushed directly (`args.push(criteria[this.statusField])`); non-scalar
entries are collapsed to the opaque `objV` marker. -/
def CritValue.asArg : CritValue → Value
  | .scalar v => v
  | .arr _ => .objV
  | .obj _ _ _ _ _ _ _ => .objV

/-- A JS object modelled as an ordered association list with unique keys. -/
abbrev JsObj (α : Type) := List (String × α)

/-- Property read: `o[k]`, `none` meaning `undefined`. -/
def objGet {α : Type} (o : JsObj α) (k : String) : Option α :=
  (o.find? (fun p => p.1 == k)).map (fun p => p.2)

/-- Property assignment `o[k] = v`: replaces the value in place if the key
exists, otherwise appends the key at the end (JS insertion order). -/
def objSet {α : Type} (o : JsObj α) (k : String) (v : α) : JsObj α :=
  match o with
  | [] => [(k, v)]
  | p :: rest => if p.1 = k then (k, v) :: rest else p :: objSet rest k v

/-- `delete o[k]`. -/
def objDelete {α : Type} (o : JsObj α) (k : String) : JsObj α :=
  o.filter (fun p => p.1 != k)

/-- The comparison operators `$gt`, `$gte`, `$lt`, `$lte`. -/
inductive CmpKind where
  | gt
  | gte
  | lt
  | lte
deriving DecidableEq

/-- One fragment pushed onto the `where` array by the source.  Each
constructor corresponds to one `where.push(...)` site and records, for
every `$n` placeholder in the pushed string, the pair of the placeholder
number `n` and the value pushed onto `args` at the same site. -/
inductive Clause where
  | compositeStatus (field : String) (p q : Nat × Value)
  | inList (field : String) (neg : Bool) (ps : List (Nat × Value))
  | cmp (field : String) (kind : CmpKind) (p : Nat × Value)
  | cmpi (field : String) (neg : Bool) (p : Nat × Value)
  | eqTo (field : String) (neg : Bool) (p : Nat × Value)
deriving DecidableEq

/-- The placeholder/argument pairs recorded in a clause. -/
def clauseParams : Clause → List (Nat × Value)
  | .compositeStatus _ p q => [p, q]
  | .inList _ _ ps => ps
  | .cmp _ _ p => [p]
  | .cmpi _ _ p => [p]
  | .eqTo _ _ p => [p]

/-- SQL text of the operator of a comparison clause. -/
def CmpKind.sqlOp : CmpKind → String
  | .gt => ">"
  | .gte => ">="
  | .lt => "<"
  | .lte => "<="

/-- Renders a clause to the exact string the source pushes onto `where`. -/
def renderClause : Clause → String
  | .compositeStatus f p q =>
      "\"" ++ f ++ "\" = $" ++ toString p.1 ++ " AND \"" ++ f ++ "\" != $" ++ toString q.1
  | .inList f neg ps =>
      "\"" ++ f ++ "\" " ++ (if neg then "NOT " else "") ++ "IN (" ++
        String.intercalate ", " (ps.map (fun p => "$" ++ toString p.1)) ++ ")"
  | .cmp f kind p =>
      "\"" ++ f ++ "\" " ++ kind.sqlOp ++ " $" ++ toString p.1
  | .cmpi f neg p =>
      "LOWER(\"" ++ f ++ "\") " ++ (if neg then "!=" else "=") ++ " LOWER($" ++ toString p.1 ++ ")"
  | .eqTo f neg p =>
      "\"" ++ f ++ "\" " ++ (if neg then "!=" else "=") ++ " $" ++ toString p.1

/-- Pushes every element of an array criterion onto the argument vector,
returning the placeholder pairs in order
(`value.map(val => { args.push(val); return '$'+args.length; })`). -/
def pushArgs (a : List Value) (vs : List Value) : List (Nat × Value) × List Value :=
  match vs with
  | [] => ([], a)
  | v :: rest =>
      let a1 := a ++ [v]
      let (ps, a2) := pushArgs a1 rest
      (((a1.length, v)) :: ps, a2)

/-- One range-comparison branch of `_buildCriteria`
(`if (value.$gt) { where.push(...); args.push(value.$gt); }`). -/
def pushCmp (field : String) (kind : CmpKind) (v : Option Value)
    (st : List Clause × List Value) : List Clause × List Value :=
  match v with
  | some v => if jsTruthy v then (st.1 ++ [.cmp field kind (st.2.length + 1, v)], st.2 ++ [v]) else st
  | none => st

/-- One case-insensitive branch of `_buildCriteria` (`$eqi` / `$nei`). -/
def pushCmpi (field : String) (neg : Bool) (v : Option Value)
    (st : List Clause × List Value) : List Clause × List Value :=
  match v with
  | some v => if jsTruthy v then (st.1 ++ [.cmpi field neg (st.2.length + 1, v)], st.2 ++ [v]) else st
  | none => st

/-- The scalar and array branches of `_buildCriteria`, shared between the
direct compilation of a criteria entry and the `$ne` recursion (which
re-enters the compiler with flipped polarity on the same shapes). -/
def compileBase (field : String) (equality : Bool) (nv : NeVal)
    (st : List Clause × List Value) : List Clause × List Value :=
  match nv with
  | .scalar v => (st.1 ++ [.eqTo field (!equality) (st.2.length + 1, v)], st.2 ++ [v])
  | .arr vs =>
      let (ps, a2) := pushArgs st.2 vs
      (st.1 ++ [.inList field (!equality) ps], a2)

/-- The `$ne` branch of `_buildCriteria`: when present and truthy, the
operand re-enters the compiler with polarity `false`. -/
def compileNe (field : String) (ne : Option NeVal)
    (st : List Clause × List Value) : List Clause × List Value :=
  match ne with
  | some nv => if neTruthy nv then compileBase field false nv st else st
  | none => st

/-- Compilation of a single `field: value` pair of a criteria object, the
body of the `forEach` in `_buildCriteria`: the operator branches run in
source order (`$ne`, `$gt`, `$gte`, `$lt`, `$lte`, `$eqi`, `$nei`). -/
def compileValue (field : String) (value : CritValue) (equality : Bool)
    (st : List Clause × List Value) : List Clause × List Value :=
  match value with
  | .scalar v => compileBase field equality (.scalar v) st
  | .arr vs => compileBase field equality (.arr vs) st
  | .obj ne gt gte lt lte eqi nei =>
      pushCmpi field true nei
        (pushCmpi field false eqi
          (pushCmp field .lte lte
            (pushCmp field .lt lt
              (pushCmp field .gte gte
                (pushCmp field .gt gt
                  (compileNe field ne st))))))

/-- `_buildCriteria(criteria, where, args, equality)`: folds the per-pair
compiler over the criteria entries in insertion order. -/
def buildCriteria (criteria : JsObj CritValue) (st : List Clause × List Value)
    (equality : Bool) : List Clause × List Value :=
  criteria.foldl (fun st p => compileValue p.1 p.2 equality st) st

/-- The configured state of a `PostgresCrudService` instance.
`updatedField` is the mutable property: the constructor always stores a
non-empty string, but tests disable stamping by assigning `null` to the
property directly, so the property itself is an `Option`. -/
structure Service where
  schema : String
  table : String
  idField : String
  statusField : String
  updatedField : Option String
  modifiableKeys : List String
  deletedStatus : Value
  concealDeadResources : Bool
deriving DecidableEq

/-- Construction options for `new PostgresCrudService(app, options)`;
`none` stands for an absent (`undefined`) or `null` option. -/
structure CrudOptions where
  hasService : Bool := true
  schema : Option String := none
  table : Option String := none
  idField : Option String := none
  statusField : Option String := none
  updatedField : Option String := none
  modifiableKeys : Option (List String) := none
  deletedStatus : Option Value := none
  concealDeadResources : Option Bool := none

/-- `options.x || defaultString`: an absent or empty string falls back to
the default. -/
def strOr (o : Option String) (d : String) : String :=
  match o with
  | some s => if s.isEmpty then d else s
  | none => d

/-- `options.x || defaultValue` on a JS value: falsy falls back. -/
def valOr (o : Option Value) (d : Value) : Value :=
  match o with
  | some v => if jsTruthy v then v else d
  | none => d

/-- The constructor: validates the required options and applies the
defaults (`idField || 'id'`, `statusField || 'status'`,
`updatedField || 'updated'`, `deletedStatus || 'dead'`,
`concealDeadResources !== undefined ? v : true`). -/
def mkService (options : CrudOptions) : Except String Service :=
  if !options.hasService then
    .error "PostgresCrudService: service must be defined on initialization"
  else
    let schema := (options.schema.getD "")
    let table := (options.table.getD "")
    if schema.isEmpty then
      .error "PostgresCrudService: schema must be defined on initialization"
    else if table.isEmpty then
      .error "PostgresCrudService: table must be defined on initialization"
    else
      .ok {
        schema := schema
        table := table
        idField := strOr options.idField "id"
        statusField := strOr options.statusField "status"
        updatedField := some (strOr options.updatedField "updated")
        modifiableKeys := options.modifiableKeys.getD []
        deletedStatus := valOr options.deletedStatus (.str "dead")
        concealDeadResources := options.concealDeadResources.getD true }

/-- The internal query mode switch (`PostgresCrudService._QUERY_MODE`). -/
inductive QueryMode where
  | count
deriving DecidableEq

/-- The consumable query options of `find` (`client` is passed through to
the pool and is not modelled).  `none` stands for an absent key. -/
structure QueryOptions where
  skip : Option Value := none
  take : Option Value := none
  fields : Option (JsObj Value) := none
  sort : Option (List (String × Int)) := none
  conceal : Option Bool := none
  mode : Option QueryMode := none
deriving DecidableEq

/-- The status criterion injected by the concealment merge:
`{ [statusField]: { $ne: deletedStatus } }`. -/
def injectedStatus (svc : Service) : CritValue :=
  .obj (some (.scalar svc.deletedStatus)) none none none none none none

/-- The soft-delete merge block, inlined verbatim by the source in `find`,
`bulkUpdate` and `bulkDeletePermanently`: if the criteria has a truthy
status entry, push the composite clause
`"status" = $(n+1) AND "status" != $(n+2)` (with `n` the current length
of `args`; `bulkDeletePermanently` writes `$1`/`$2` literally because its
`args` is empty), push the status value and the deleted status onto
`args`, and delete the status entry from the criteria; otherwise assign
`criteria[statusField] = { $ne: deletedStatus }`. -/
def mergeStatus (svc : Service) (criteria : JsObj CritValue) (a0 : List Value) :
    JsObj CritValue × List Clause × List Value :=
  match objGet criteria svc.statusField with
  | some sv =>
      if critTruthy sv then
        (objDelete criteria svc.statusField,
         [Clause.compositeStatus svc.statusField (a0.length + 1, sv.asArg)
            (a0.length + 2, svc.deletedStatus)],
         a0 ++ [sv.asArg, svc.deletedStatus])
      else (objSet criteria svc.statusField (injectedStatus svc), [], a0)
  | none => (objSet criteria svc.statusField (injectedStatus svc), [], a0)

/-- The concealment block of `find`: given the caller's criteria and the
effective `conceal` flag, returns the merged criteria together with the
`where` and `args` arrays (both empty on entry in `find`); an absent
criteria gets the fresh object `{ [statusField]: { $ne: deletedStatus } }`. -/
def findConceal (svc : Service) (criteria : Option (JsObj CritValue)) (conceal : Bool) :
    Option (JsObj CritValue) × List Clause × List Value :=
  if svc.concealDeadResources && conceal then
    match criteria with
    | some c =>
        let m := mergeStatus svc c []
        (some m.1, m.2)
    | none => (some [(svc.statusField, injectedStatus svc)], [], [])
  else (criteria, [], [])

/-- The WHERE stage of `find`: concealment merge followed by criteria
compilation. -/
def findWhere (svc : Service) (criteria0 : Option (JsObj CritValue)) (conceal : Bool) :
    List Clause × List Value :=
  let fc := findConceal svc criteria0 conceal
  buildCriteria (fc.1.getD []) fc.2 true

/-- The compiled output of `find`: the WHERE fragments, the full argument
vector, the projection (`none` meaning `*` or the count aggregate), the
ORDER BY text, the OFFSET/LIMIT placeholder-value pairs, and the mutated
caller criteria and options. -/
structure FindQuery where
  whereClauses : List Clause
  args : List Value
  countMode : Bool
  projection : Option (List String)
  fieldsSql : String
  sortSql : Option String
  offsetParam : Option (Nat × Value)
  limitParam : Option (Nat × Value)
  criteria : Option (JsObj CritValue)
  options : QueryOptions
deriving DecidableEq

/-- `find(criteria, options)`: strips the consumed option keys, applies
the concealment merge, compiles the criteria, builds the projection and
the ORDER BY / OFFSET / LIMIT tail.  The OFFSET and LIMIT values are
appended to `args` after all WHERE arguments, with placeholder numbers
`args.length + 1` at the time of each push. -/
def find (svc : Service) (criteria0 : Option (JsObj CritValue)) (options : QueryOptions) :
    FindQuery :=
  let skip := options.skip
  let limit := options.take
  let sort := options.sort
  let conceal := options.conceal.getD true
  let mode := options.mode
  let fields := if mode.isSome then none else options.fields
  let fc := findConceal svc criteria0 conceal
  let wa := findWhere svc criteria0 conceal
  let countMode := mode = some QueryMode.count
  let projection :=
    match fields with
    | some fs =>
        let fs := if (objGet fs "id").isNone then objSet fs "id" (Value.num 1) else fs
        some ((fs.filter (fun p => jsTruthy p.2)).map (fun p => p.1))
    | none => none
  let fieldsSql :=
    match projection with
    | some allowed => String.intercalate ", " (allowed.map (fun f => "\"" ++ f ++ "\""))
    | none => if countMode then "COUNT(*) AS count" else "*"
  let sortSql := sort.map (fun s =>
    String.intercalate "," (s.map (fun p =>
      "\"" ++ p.1 ++ "\" " ++ (if p.2 > 0 then "ASC" else "DESC"))))
  let offsetParam := skip.map (fun v => ((wa.2.length + 1, v)))
  let a3 := wa.2 ++ skip.toList
  let limitParam := limit.map (fun v => ((a3.length + 1, v)))
  let a4 := a3 ++ limit.toList
  { whereClauses := wa.1
    args := a4
    countMode := countMode
    projection := projection
    fieldsSql := fieldsSql
    sortSql := sortSql
    offsetParam := offsetParam
    limitParam := limitParam
    criteria := fc.1
    options := {} }

/-- `count(criteria, options)`: deletes `skip`, `take`, `sort`, `fields`
from the options, switches on count mode and delegates to `find`. -/
def count (svc : Service) (criteria : Option (JsObj CritValue)) (options : QueryOptions) :
    FindQuery :=
  find svc criteria
    { options with
      mode := some QueryMode.count
      skip := none
      take := none
      sort := none
      fields := none }

/-- `if (this.updatedField) doc[this.updatedField] = new Date();` -/
def stampDoc (svc : Service) (doc : JsObj Value) (now : Value) : JsObj Value :=
  match svc.updatedField with
  | some f => if f.isEmpty then doc else objSet doc f now
  | none => doc

/-- Builds the SET list of an UPDATE: for each field of `setData` in
order, pushes the value onto `args` and records
`(field, placeholder number, value)`
(`Object.keys(setData).map(field => { args.push(setData[field]); ... })`). -/
def buildSets (setData : JsObj Value) (a : List Value) :
    List (String × Nat × Value) × List Value :=
  match setData with
  | [] => ([], a)
  | (f, v) :: rest =>
      let a1 := a ++ [v]
      let (ss, a2) := buildSets rest a1
      (((f, a1.length, v)) :: ss, a2)

/-- The compiled output of `bulkUpdate` / `bulkDelete`: the SET list, the
WHERE fragments, the full argument vector and the mutated criteria and
data objects. -/
structure BulkQuery where
  sets : List (String × Nat × Value)
  whereClauses : List Clause
  args : List Value
  criteria : JsObj CritValue
  data : JsObj Value
deriving DecidableEq

/-- `bulkUpdate(criteria, data, options)`: normalizes the criteria,
stamps `data[updatedField] = new Date()` when the property is truthy,
builds the SET list (dropping the id field), applies the same concealment
merge as `find` (with placeholder numbers continuing after the SET
arguments) and compiles the criteria. -/
def bulkUpdate (svc : Service) (criteria0 : Option (JsObj CritValue)) (data0 : JsObj Value)
    (options : QueryOptions) (now : Value) : BulkQuery :=
  let conceal := options.conceal.getD true
  let criteria := criteria0.getD []
  let data := stampDoc svc data0 now
  let setData := objDelete data svc.idField
  let sa := buildSets setData []
  let a0 := sa.2
  let m :=
    if svc.concealDeadResources && conceal then mergeStatus svc criteria a0
    else (criteria, [], a0)
  let wa := buildCriteria m.1 m.2 true
  { sets := sa.1
    whereClauses := wa.1
    args := wa.2
    criteria := m.1
    data := data }

/-- `bulkDelete(criteria, options)`: delegates to `bulkUpdate` with the
data `{ [statusField]: deletedStatus }`. -/
def bulkDelete (svc : Service) (criteria : Option (JsObj CritValue))
    (options : QueryOptions) (now : Value) : BulkQuery :=
  bulkUpdate svc criteria [(svc.statusField, svc.deletedStatus)] options now

/-- The compiled output of `bulkDeletePermanently`. -/
structure BulkDeleteQuery where
  whereClauses : List Clause
  args : List Value
  criteria : JsObj CritValue
deriving DecidableEq

/-- `bulkDeletePermanently(criteria, options)`: hard DELETE with the same
concealment merge (the source writes the placeholder numbers `$1`/`$2`
literally because `args` starts empty here). -/
def bulkDeletePermanently (svc : Service) (criteria0 : Option (JsObj CritValue))
    (options : QueryOptions) : BulkDeleteQuery :=
  let conceal := options.conceal.getD true
  let criteria := criteria0.getD []
  let m :=
    if svc.concealDeadResources && conceal then mergeStatus svc criteria []
    else (criteria, [], [])
  let wa := buildCriteria m.1 m.2 true
  { whereClauses := wa.1
    args := wa.2
    criteria := m.1 }

/-- A database row: column name to driver value. -/
abbrev Row := JsObj Value

/-- Column read in SQL position: an absent column reads as NULL. -/
def rowGet (row : Row) (f : String) : Value :=
  (objGet row f).getD Value.null

/-- SQL `=` with three-valued logic collapsed to "matched": NULL compares
false against everything. -/
def sqlEq (a b : Value) : Bool :=
  if a = Value.null ∨ b = Value.null then false else decide (a = b)

/-- SQL `!=`: NULL compares false against everything. -/
def sqlNe (a b : Value) : Bool :=
  if a = Value.null ∨ b = Value.null then false else decide (¬a = b)

/-- `retrieve(id, options)`: resolves `null` immediately when the id is
null/undefined; otherwise selects by id, with `AND statusField != deletedStatus`
appended exactly when the service is configured to conceal, and `LIMIT 1`.
The options argument is accepted but the source destructures only
`client` from it: no `conceal` option is consulted. -/
def retrieve (svc : Service) (id : Value) (_options : QueryOptions) (table : List Row) :
    Option Row :=
  if id = Value.null then none
  else
    (table.filter (fun r =>
      sqlEq (rowGet r svc.idField) id &&
      (if svc.concealDeadResources then sqlNe (rowGet r svc.statusField) svc.deletedStatus
       else true))).head?

/-- `_applyUpdates(doc, data)`: copies each configured modifiable key from
`data` onto `doc` when the data value is truthy. -/
def applyUpdates (svc : Service) (doc : Row) (data : Option Row) : Row :=
  match data with
  | some d =>
      svc.modifiableKeys.foldl (fun doc property =>
        match objGet d property with
        | some v => if jsTruthy v then objSet doc property v else doc
        | none => doc) doc
  | none => doc

/-- The UPDATE statement produced by `update`: the SET list and the
trailing WHERE-by-id placeholder. -/
structure UpdateStatement where
  sets : List (String × Nat × Value)
  idParam : Nat × Value

/-- The outcome of `update`: the caller's (mutated) row and either the
issued statement or the usage error. -/
structure UpdateOutcome where
  doc : Row
  result : Except String UpdateStatement

/-- `update(doc, data, options)`: applies the allow-listed patch fields,
stamps the updated field, then checks for the id; on a missing id it
rejects without building any statement, otherwise it builds
`UPDATE ... SET ... WHERE id = $n RETURNING *` with the id as the last
positional argument. -/
def update (svc : Service) (doc0 : Row) (data : Option Row) (now : Value) : UpdateOutcome :=
  let doc1 := applyUpdates svc doc0 data
  let doc2 := stampDoc svc doc1 now
  match objGet doc2 svc.idField with
  | none =>
      { doc := doc2
        result := .error "PostgresCrudService: Cannot update row if id field not provided" }
  | some idVal =>
      let setData := objDelete doc2 svc.idField
      let sa := buildSets setData []
      { doc := doc2
        result := .ok { sets := sa.1, idParam := (sa.2.length + 1, idVal) } }

/-- `delete(doc, options)`: sets the status field to the deleted status
and delegates to `update` with no patch data. -/
def deleteRow (svc : Service) (doc : Row) (now : Value) : UpdateOutcome :=
  update svc (objSet doc svc.statusField svc.deletedStatus) none now

/-- Applies a SET list to a row (the effect of `SET "f" = $n, ...`). -/
def setRow (row : Row) (sets : List (String × Nat × Value)) : Row :=
  sets.foldl (fun r s => objSet r s.1 s.2.2) row

/-- The table-level effect of the UPDATE statement built by `update`:
every row whose id column equals the bound id value receives the SET
assignments. -/
def execUpdate (svc : Service) (st : UpdateStatement) (table : List Row) : List Row :=
  table.map (fun r => if sqlEq (rowGet r svc.idField) st.idParam.2 then setRow r st.sets else r)

/-- `deletePermanently(doc, options)`: rejects without issuing a query
when the id field is absent; otherwise issues
`DELETE ... WHERE id = $1 RETURNING *` with the id as sole argument. -/
def deletePermanently (svc : Service) (doc : Row) : Except String (Nat × Value) :=
  match objGet doc svc.idField with
  | none => .error "PostgresCrudService: Cannot delete row if id field not provided"
  | some idVal => .ok (1, idVal)

/-- The value bound to placeholder `$i` (1-based) of an argument vector. -/
def argAt (args : List Value) (i : Nat) : Value :=
  (args[i - 1]?).getD Value.null

/-- `LOWER(...)`. -/
def lowerVal : Value → Value
  | .str s => .str s.toLower
  | v => v

/-- SQL `<` on comparable scalars; incomparable or non-scalar operands do
not match. -/
def cmpLt (a b : Value) : Bool :=
  match a, b with
  | .num x, .num y => decide (x < y)
  | .str x, .str y => decide (x < y)
  | .date x, .date y => decide (x < y)
  | _, _ => false

/-- Satisfaction of a range comparison. -/
def cmpSat : CmpKind → Value → Value → Bool
  | .gt, a, b => cmpLt b a
  | .gte, a, b => cmpLt b a || sqlEq a b
  | .lt, a, b => cmpLt a b
  | .lte, a, b => cmpLt a b || sqlEq a b

/-- Whether a row satisfies one WHERE fragment, resolving each `$n`
placeholder against the argument vector. -/
def clauseSat (args : List Value) (row : Row) : Clause → Bool
  | .compositeStatus f p q =>
      sqlEq (rowGet row f) (argAt args p.1) && sqlNe (rowGet row f) (argAt args q.1)
  | .inList f neg ps =>
      let hit := ps.any (fun p => sqlEq (rowGet row f) (argAt args p.1))
      if neg then !hit else hit
  | .cmp f kind p => cmpSat kind (rowGet row f) (argAt args p.1)
  | .cmpi f neg p =>
      if neg then sqlNe (lowerVal (rowGet row f)) (lowerVal (argAt args p.1))
      else sqlEq (lowerVal (rowGet row f)) (lowerVal (argAt args p.1))
  | .eqTo f neg p =>
      if neg then sqlNe (rowGet row f) (argAt args p.1)
      else sqlEq (rowGet row f) (argAt args p.1)

/-- Whether a row matches a whole WHERE clause (fragments joined by AND). -/
def whereSat (clauses : List Clause) (args : List Value) (row : Row) : Bool :=
  clauses.all (clauseSat args row)

/-- Placeholder correctness of one clause against an argument vector:
every recorded `$n` is at least 1 and names exactly the value that was
appended for it. -/
def paramsOk (args : List Value) (c : Clause) : Prop :=
  ∀ p ∈ clauseParams c, 1 ≤ p.1 ∧ args[p.1 - 1]? = some p.2

/-- A compiler state extends another by appending clauses and arguments. -/
def stExt (st st' : List Clause × List Value) : Prop :=
  ∃ dw da, st'.1 = st.1 ++ dw ∧ st'.2 = st.2 ++ da

theorem stExt_refl (st : List Clause × List Value) : stExt st st :=
  ⟨[], [], by simp, by simp⟩

theorem stExt_trans {st1 st2 st3 : List Clause × List Value}
    (h1 : stExt st1 st2) (h2 : stExt st2 st3) : stExt st1 st3 := by
  obtain ⟨dw1, da1, hw1, ha1⟩ := h1
  obtain ⟨dw2, da2, hw2, ha2⟩ := h2
  exact ⟨dw1 ++ dw2, da1 ++ da2, by simp [hw2, hw1], by simp [ha2, ha1]⟩

theorem paramsOk_append {args : List Value} {c : Clause} (ext : List Value)
    (h : paramsOk args c) : paramsOk (args ++ ext) c := by
  intro p hp
  obtain ⟨h1, h2⟩ := h p hp
  refine ⟨h1, ?_⟩
  have hlt : p.1 - 1 < args.length := (List.getElem?_eq_some.mp h2).fst
  rw [List.getElem?_append_left hlt]
  exact h2

/-- All clauses of a state have correct placeholders. -/
def stOk (st : List Clause × List Value) : Prop :=
  ∀ c ∈ st.1, paramsOk st.2 c

theorem stOk_of_ext {st st' : List Clause × List Value} (hext : stExt st st')
    (hok : stOk st) (hnew : ∀ c ∈ st'.1, c ∉ st.1 → paramsOk st'.2 c) : stOk st' := by
  intro c hc
  by_cases hmem : c ∈ st.1
  · obtain ⟨dw, da, hw, ha⟩ := hext
    rw [ha]
    exact paramsOk_append da (hok c hmem)
  · exact hnew c hc hmem

theorem paramsOk_last (a : List Value) (v : Value) (c : Clause)
    (hc : clauseParams c = [(a.length + 1, v)]) : paramsOk (a ++ [v]) c := by
  intro p hp
  rw [hc] at hp
  simp only [List.mem_singleton] at hp
  subst hp
  refine ⟨by omega, ?_⟩
  simp [List.getElem?_concat_length a v]

theorem stOk_push {st : List Clause × List Value} (c : Clause) (v : Value)
    (h : stOk st) (hc : clauseParams c = [(st.2.length + 1, v)]) :
    stOk (st.1 ++ [c], st.2 ++ [v]) := by
  intro c' hc'
  simp only [List.mem_append, List.mem_singleton] at hc'
  cases hc' with
  | inl hmem => exact paramsOk_append [v] (h c' hmem)
  | inr heq =>
      subst heq
      exact paramsOk_last st.2 v c' hc

theorem pushArgs_args (vs : List Value) (a : List Value) : (pushArgs a vs).2 = a ++ vs := by
  induction vs generalizing a with
  | nil => simp [pushArgs]
  | cons v rest ih => simp [pushArgs, ih (a ++ [v])]

theorem pushArgs_params (vs : List Value) (a : List Value) :
    ∀ p ∈ (pushArgs a vs).1, 1 ≤ p.1 ∧ (pushArgs a vs).2[p.1 - 1]? = some p.2 := by
  induction vs generalizing a with
  | nil => simp [pushArgs]
  | cons v rest ih =>
      intro p hp
      rw [pushArgs_args]
      simp only [pushArgs] at hp
      rcases List.mem_cons.mp hp with heq | hmem
      · subst heq
        refine ⟨by simp, ?_⟩
        have : a.length + 1 - 1 = a.length := by omega
        simp only [List.length_append, List.length_singleton, this]
        have h1 : (a ++ v :: rest)[a.length]? = (v :: rest)[0]? := by
          rw [List.getElem?_append_right (Nat.le_refl a.length)]
          simp
        simpa using h1
      · have := ih (a ++ [v]) p hmem
        rw [pushArgs_args] at this
        simpa using this

theorem pushCmp_ext (field : String) (kind : CmpKind) (v : Option Value)
    (st : List Clause × List Value) : stExt st (pushCmp field kind v st) := by
  cases v with
  | none => exact stExt_refl st
  | some v =>
      by_cases h : jsTruthy v = true
      · exact ⟨[.cmp field kind (st.2.length + 1, v)], [v],
          by simp [pushCmp, h], by simp [pushCmp, h]⟩
      · simp only [pushCmp, Bool.not_eq_true] at h ⊢
        rw [h]
        exact stExt_refl st

theorem pushCmp_ok (field : String) (kind : CmpKind) (v : Option Value)
    (st : List Clause × List Value) (h : stOk st) : stOk (pushCmp field kind v st) := by
  cases v with
  | none => exact h
  | some v =>
      by_cases ht : jsTruthy v = true
      · simp only [pushCmp, ht, if_pos]
        exact stOk_push _ v h rfl
      · simp only [pushCmp, Bool.not_eq_true] at ht ⊢
        rw [ht]
        exact h

theorem pushCmpi_ext (field : String) (neg : Bool) (v : Option Value)
    (st : List Clause × List Value) : stExt st (pushCmpi field neg v st) := by
  cases v with
  | none => exact stExt_refl st
  | some v =>
      by_cases h : jsTruthy v = true
      · exact ⟨[.cmpi field neg (st.2.length + 1, v)], [v],
          by simp [pushCmpi, h], by simp [pushCmpi, h]⟩
      · simp only [pushCmpi, Bool.not_eq_true] at h ⊢
        rw [h]
        exact stExt_refl st

theorem pushCmpi_ok (field : String) (neg : Bool) (v : Option Value)
    (st : List Clause × List Value) (h : stOk st) : stOk (pushCmpi field neg v st) := by
  cases v with
  | none => exact h
  | some v =>
      by_cases ht : jsTruthy v = true
      · simp only [pushCmpi, ht, if_pos]
        exact stOk_push _ v h rfl
      · simp only [pushCmpi, Bool.not_eq_true] at ht ⊢
        rw [ht]
        exact h

theorem compileBase_ext (field : String) (equality : Bool) (nv : NeVal)
    (st : List Clause × List Value) : stExt st (compileBase field equality nv st) := by
  cases nv with
  | scalar v =>
      exact ⟨[.eqTo field (!equality) (st.2.length + 1, v)], [v],
        by simp [compileBase], by simp [compileBase]⟩
  | arr vs =>
      refine ⟨[.inList field (!equality) (pushArgs st.2 vs).1], vs, by simp [compileBase], ?_⟩
      simp [compileBase, pushArgs_args]

theorem compileBase_ok (field : String) (equality : Bool) (nv : NeVal)
    (st : List Clause × List Value) (h : stOk st) : stOk (compileBase field equality nv st) := by
  cases nv with
  | scalar v =>
      simp only [compileBase]
      exact stOk_push _ v h rfl
  | arr vs =>
      intro c hc
      simp only [compileBase, List.mem_append, List.mem_singleton] at hc
      rcases hc with hmem | heq
      · have h2 := h c hmem
        have : (compileBase field equality (.arr vs) st).2 = st.2 ++ vs := by
          simp [compileBase, pushArgs_args]
        simp only [compileBase]
        rw [pushArgs_args]
        exact paramsOk_append vs h2
      · subst heq
        intro p hp
        simp only [clauseParams] at hp
        have := pushArgs_params vs st.2 p hp
        simp only [compileBase]
        rw [pushArgs_args]
        rw [pushArgs_args] at this
        exact this

theorem compileNe_ext (field : String) (ne : Option NeVal)
    (st : List Clause × List Value) : stExt st (compileNe field ne st) := by
  cases ne with
  | none => exact stExt_refl st
  | some nv =>
      by_cases h : neTruthy nv = true
      · simp only [compileNe, h, if_pos]
        exact compileBase_ext field false nv st
      · simp only [compileNe, Bool.not_eq_true] at h ⊢
        rw [h]
        exact stExt_refl st

theorem compileNe_ok (field : String) (ne : Option NeVal)
    (st : List Clause × List Value) (h : stOk st) : stOk (compileNe field ne st) := by
  cases ne with
  | none => exact h
  | some nv =>
      by_cases ht : neTruthy nv = true
      · simp only [compileNe, ht, if_pos]
        exact compileBase_ok field false nv st h
      · simp only [compileNe, Bool.not_eq_true] at ht ⊢
        rw [ht]
        exact h

theorem compileValue_ext (field : String) (value : CritValue) (equality : Bool)
    (st : List Clause × List Value) : stExt st (compileValue field value equality st) := by
  cases value with
  | scalar v => exact compileBase_ext field equality (.scalar v) st
  | arr vs => exact compileBase_ext field equality (.arr vs) st
  | obj ne gt gte lt lte eqi nei =>
      simp only [compileValue]
      exact stExt_trans (compileNe_ext field ne st)
        (stExt_trans (pushCmp_ext field .gt gt _)
          (stExt_trans (pushCmp_ext field .gte gte _)
            (stExt_trans (pushCmp_ext field .lt lt _)
              (stExt_trans (pushCmp_ext field .lte lte _)
                (stExt_trans (pushCmpi_ext field false eqi _)
                  (pushCmpi_ext field true nei _))))))

theorem compileValue_ok (field : String) (value : CritValue) (equality : Bool)
    (st : List Clause × List Value) (h : stOk st) : stOk (compileValue field value equality st) := by
  cases value with
  | scalar v => exact compileBase_ok field equality (.scalar v) st h
  | arr vs => exact compileBase_ok field equality (.arr vs) st h
  | obj ne gt gte lt lte eqi nei =>
      simp only [compileValue]
      exact pushCmpi_ok field true nei _
        (pushCmpi_ok field false eqi _
          (pushCmp_ok field .lte lte _
            (pushCmp_ok field .lt lt _
              (pushCmp_ok field .gte gte _
                (pushCmp_ok field .gt gt _
                  (compileNe_ok field ne st h))))))

theorem buildCriteria_ext (l : JsObj CritValue) (st : List Clause × List Value)
    (equality : Bool) : stExt st (buildCriteria l st equality) := by
  induction l generalizing st with
  | nil => exact stExt_refl st
  | cons p rest ih =>
      simp only [buildCriteria, List.foldl_cons]
      exact stExt_trans (compileValue_ext p.1 p.2 equality st) (ih _)

theorem buildCriteria_ok (l : JsObj CritValue) (st : List Clause × List Value)
    (equality : Bool) (h : stOk st) : stOk (buildCriteria l st equality) := by
  induction l generalizing st with
  | nil => exact h
  | cons p rest ih =>
      simp only [buildCriteria, List.foldl_cons]
      exact ih _ (compileValue_ok p.1 p.2 equality st h)

theorem buildCriteria_cons (p : String × CritValue) (rest : JsObj CritValue)
    (st : List Clause × List Value) (equality : Bool) :
    buildCriteria (p :: rest) st equality
      = buildCriteria rest (compileValue p.1 p.2 equality st) equality := by
  simp [buildCriteria]

theorem objGet_nil {α : Type} (k : String) : objGet ([] : JsObj α) k = none := rfl

theorem objGet_cons {α : Type} (p : String × α) (rest : JsObj α) (k : String) :
    objGet (p :: rest) k = if p.1 = k then some p.2 else objGet rest k := by
  rw [objGet, List.find?]
  by_cases h : p.1 = k
  · simp [h]
  · have hb : (p.1 == k) = false := by simp [h]
    rw [hb]
    simp [h, objGet]

theorem objGet_objSet_self {α : Type} (o : JsObj α) (k : String) (v : α) :
    objGet (objSet o k v) k = some v := by
  induction o with
  | nil => simp [objSet, objGet_cons]
  | cons p rest ih =>
      by_cases h : p.1 = k
      · simp [objSet, h, objGet_cons]
      · simp [objSet, h, objGet_cons, ih]

theorem objGet_objSet_ne {α : Type} (o : JsObj α) (k q : String) (v : α) (h : q ≠ k) :
    objGet (objSet o k v) q = objGet o q := by
  have h1 : ¬k = q := fun hh => h hh.symm
  induction o with
  | nil =>
      show objGet [(k, v)] q = objGet [] q
      rw [objGet_cons]
      simp [h1, objGet_nil]
  | cons p rest ih =>
      simp only [objSet]
      by_cases hp : p.1 = k
      · rw [if_pos hp, objGet_cons, objGet_cons]
        have h2 : ¬p.1 = q := by
          rw [hp]
          exact h1
        simp [h1, h2]
      · rw [if_neg hp, objGet_cons, objGet_cons]
        by_cases hq : p.1 = q
        · simp [hq]
        · simp [hq, ih]

theorem objDelete_nil {α : Type} (k : String) : objDelete ([] : JsObj α) k = [] := rfl

theorem objDelete_cons {α : Type} (p : String × α) (rest : JsObj α) (k : String) :
    objDelete (p :: rest) k
      = if p.1 = k then objDelete rest k else p :: objDelete rest k := by
  by_cases h : p.1 = k <;> simp [objDelete, List.filter_cons, h]

theorem objGet_objDelete_self {α : Type} (o : JsObj α) (k : String) :
    objGet (objDelete o k) k = none := by
  induction o with
  | nil => rfl
  | cons p rest ih =>
      rw [objDelete_cons]
      by_cases h : p.1 = k
      · simp [h, ih]
      · simp [h, objGet_cons, ih]

theorem objGet_objDelete_ne {α : Type} (o : JsObj α) (k q : String) (h : q ≠ k) :
    objGet (objDelete o k) q = objGet o q := by
  induction o with
  | nil => rfl
  | cons p rest ih =>
      rw [objDelete_cons]
      by_cases hp : p.1 = k
      · rw [if_pos hp, objGet_cons]
        have hq : ¬p.1 = q := by
          rw [hp]
          exact fun hh => h hh.symm
        rw [if_neg hq]
        exact ih
      · rw [if_neg hp, objGet_cons, objGet_cons]
        by_cases hq : p.1 = q
        · simp [hq]
        · simp [hq, ih]

theorem objGet_mem {α : Type} (o : JsObj α) (k : String) (v : α)
    (h : objGet o k = some v) : (k, v) ∈ o := by
  induction o with
  | nil => simp [objGet_nil] at h
  | cons p rest ih =>
      rw [objGet_cons] at h
      by_cases hp : p.1 = k
      · rw [if_pos hp] at h
        have hv : p.2 = v := by injection h
        have hpv : p = (k, v) := by
          obtain ⟨a, b⟩ := p
          simp only at hp hv
          rw [hp, hv]
        rw [hpv]
        exact List.mem_cons_self _ _
      · rw [if_neg hp] at h
        exact List.mem_cons_of_mem p (ih h)

theorem objSet_mem {α : Type} (o : JsObj α) (k : String) (v : α) :
    (k, v) ∈ objSet o k v := by
  induction o with
  | nil => simp [objSet]
  | cons p rest ih =>
      by_cases h : p.1 = k
      · simp [objSet, h]
      · simp only [objSet, h, ite_false]
        exact List.mem_cons_of_mem p ih

theorem sqlNe_self (v : Value) : sqlNe v v = false := by
  simp [sqlNe]

theorem whereSat_eq_false {cs : List Clause} {args : List Value} {row : Row} {c : Clause}
    (hc : c ∈ cs) (h : clauseSat args row c = false) : whereSat cs args row = false := by
  rw [whereSat]
  cases hall : cs.all (clauseSat args row)
  · rfl
  · have := List.all_eq_true.mp hall c hc
    rw [h] at this
    exact absurd this (by simp)

/-- A state contains a clause no row with the given column values can
satisfy, whatever further arguments are appended. -/
def deadWitness (st : List Clause × List Value) (row : Row) : Prop :=
  ∃ c ∈ st.1, ∀ ext : List Value, clauseSat (st.2 ++ ext) row c = false

theorem deadWitness_ext {st st' : List Clause × List Value} {row : Row}
    (h : deadWitness st row) (hext : stExt st st') : deadWitness st' row := by
  obtain ⟨c, hc, hsat⟩ := h
  obtain ⟨dw, da, hw, ha⟩ := hext
  refine ⟨c, by rw [hw]; exact List.mem_append_left _ hc, ?_⟩
  intro ext
  rw [ha, List.append_assoc]
  exact hsat (da ++ ext)

theorem whereSat_false_of_deadWitness {st : List Clause × List Value} {row : Row}
    (h : deadWitness st row) (ext : List Value) : whereSat st.1 (st.2 ++ ext) row = false := by
  obtain ⟨c, hc, hsat⟩ := h
  exact whereSat_eq_false hc (hsat ext)

theorem whereSat_false_of_deadWitness_nil {st : List Clause × List Value} {row : Row}
    (h : deadWitness st row) : whereSat st.1 st.2 row = false := by
  have := whereSat_false_of_deadWitness h []
  simpa using this

theorem deadWitness_composite (f : String) (x dead : Value) (a0 : List Value) (row : Row)
    (hrow : rowGet row f = dead) :
    deadWitness ([Clause.compositeStatus f (a0.length + 1, x) (a0.length + 2, dead)],
      a0 ++ [x, dead]) row := by
  refine ⟨Clause.compositeStatus f (a0.length + 1, x) (a0.length + 2, dead), by simp, ?_⟩
  intro ext
  have harg : argAt ((a0 ++ [x, dead]) ++ ext) (a0.length + 2) = dead := by
    rw [argAt]
    have h1 : a0.length + 2 - 1 = (a0 ++ [x]).length := by simp
    have h2 : a0 ++ [x, dead] = (a0 ++ [x]) ++ [dead] := by simp
    rw [h1, h2, List.append_assoc, List.getElem?_append_right (Nat.le_refl _)]
    simp
  simp only [clauseSat, harg, hrow, sqlNe_self, Bool.and_false]

theorem buildCriteria_mem_ne (l : JsObj CritValue) (f : String) (d : Value)
    (st : List Clause × List Value)
    (hmem : (f, CritValue.obj (some (.scalar d)) none none none none none none) ∈ l)
    (ht : jsTruthy d = true) :
    ∃ n, Clause.eqTo f true (n + 1, d) ∈ (buildCriteria l st true).1 ∧
      (buildCriteria l st true).2[n]? = some d := by
  induction l generalizing st with
  | nil => simp at hmem
  | cons p rest ih =>
      rw [buildCriteria_cons]
      rcases List.mem_cons.mp hmem with heq | hmem2
      · rw [← heq]
        have hcv : compileValue f (CritValue.obj (some (.scalar d)) none none none none none none)
            true st = (st.1 ++ [Clause.eqTo f true (st.2.length + 1, d)], st.2 ++ [d]) := by
          simp [compileValue, compileNe, neTruthy, ht, compileBase, pushCmp, pushCmpi]
        rw [hcv]
        obtain ⟨dw, da, hw, ha⟩ :=
          buildCriteria_ext rest (st.1 ++ [Clause.eqTo f true (st.2.length + 1, d)], st.2 ++ [d]) true
        refine ⟨st.2.length, ?_, ?_⟩
        · rw [hw]
          simp
        · rw [ha, List.getElem?_append_left (by simp)]
          simp [List.getElem?_concat_length]
      · exact ih (compileValue p.1 p.2 true st) hmem2

theorem deadWitness_inject (l : JsObj CritValue) (f : String) (d : Value)
    (st : List Clause × List Value) (row : Row)
    (hmem : (f, CritValue.obj (some (.scalar d)) none none none none none none) ∈ l)
    (ht : jsTruthy d = true) (hrow : rowGet row f = d) :
    deadWitness (buildCriteria l st true) row := by
  obtain ⟨n, hcmem, harg⟩ := buildCriteria_mem_ne l f d st hmem ht
  refine ⟨Clause.eqTo f true (n + 1, d), hcmem, ?_⟩
  intro ext
  have hext : ((buildCriteria l st true).2 ++ ext)[n]? = some d := by
    rw [List.getElem?_append_left (List.getElem?_eq_some.mp harg).fst]
    exact harg
  have hn : n + 1 - 1 = n := by omega
  simp only [clauseSat, if_pos, argAt, hn, hext, Option.getD_some, hrow, sqlNe_self]

theorem mergeStatus_deadWitness (svc : Service) (criteria : JsObj CritValue)
    (a0 : List Value) (row : Row)
    (ht : jsTruthy svc.deletedStatus = true)
    (hrow : rowGet row svc.statusField = svc.deletedStatus) :
    deadWitness (buildCriteria (mergeStatus svc criteria a0).1 (mergeStatus svc criteria a0).2 true)
      row := by
  cases hsv : objGet criteria svc.statusField with
  | some sv =>
      by_cases hct : critTruthy sv = true
      · have hm : mergeStatus svc criteria a0
            = (objDelete criteria svc.statusField,
               [Clause.compositeStatus svc.statusField (a0.length + 1, sv.asArg)
                  (a0.length + 2, svc.deletedStatus)],
               a0 ++ [sv.asArg, svc.deletedStatus]) := by
          simp [mergeStatus, hsv, hct]
        rw [hm]
        exact deadWitness_ext
          (deadWitness_composite svc.statusField sv.asArg svc.deletedStatus a0 row hrow)
          (buildCriteria_ext _ _ _)
      · have hm : mergeStatus svc criteria a0
            = (objSet criteria svc.statusField (injectedStatus svc), [], a0) := by
          simp [mergeStatus, hsv, hct]
        rw [hm]
        exact deadWitness_inject _ _ _ _ _ (objSet_mem criteria svc.statusField _) ht hrow
  | none =>
      have hm : mergeStatus svc criteria a0
          = (objSet criteria svc.statusField (injectedStatus svc), [], a0) := by
        simp [mergeStatus, hsv]
      rw [hm]
      exact deadWitness_inject _ _ _ _ _ (objSet_mem criteria svc.statusField _) ht hrow

theorem findConceal_deadWitness (svc : Service) (criteria0 : Option (JsObj CritValue)) (row : Row)
    (hcd : svc.concealDeadResources = true)
    (ht : jsTruthy svc.deletedStatus = true)
    (hrow : rowGet row svc.statusField = svc.deletedStatus) :
    deadWitness (buildCriteria ((findConceal svc criteria0 true).1.getD [])
      (findConceal svc criteria0 true).2 true) row := by
  cases criteria0 with
  | none =>
      have hfc : findConceal svc none true
          = (some [(svc.statusField, injectedStatus svc)], [], []) := by
        simp [findConceal, hcd]
      rw [hfc]
      exact deadWitness_inject _ _ _ _ _ (by simp [injectedStatus]) ht hrow
  | some c =>
      have hfc : findConceal svc (some c) true
          = (some (mergeStatus svc c []).1, (mergeStatus svc c []).2) := by
        simp [findConceal, hcd]
      rw [hfc]
      exact mergeStatus_deadWitness svc c [] row ht hrow

theorem find_whereSat_dead (svc : Service) (criteria0 : Option (JsObj CritValue))
    (options : QueryOptions) (row : Row)
    (hcd : svc.concealDeadResources = true)
    (ht : jsTruthy svc.deletedStatus = true)
    (hrow : rowGet row svc.statusField = svc.deletedStatus)
    (hco : options.conceal.getD true = true) :
    whereSat (find svc criteria0 options).whereClauses (find svc criteria0 options).args row
      = false := by
  have hdw := findConceal_deadWitness svc criteria0 row hcd ht hrow
  simp only [find, hco]
  rw [List.append_assoc]
  exact whereSat_false_of_deadWitness hdw _

theorem count_whereSat_dead (svc : Service) (criteria0 : Option (JsObj CritValue))
    (options : QueryOptions) (row : Row)
    (hcd : svc.concealDeadResources = true)
    (ht : jsTruthy svc.deletedStatus = true)
    (hrow : rowGet row svc.statusField = svc.deletedStatus)
    (hco : options.conceal.getD true = true) :
    whereSat (count svc criteria0 options).whereClauses (count svc criteria0 options).args row
      = false := by
  rw [count]
  exact find_whereSat_dead svc criteria0 _ row hcd ht hrow hco

theorem bulkUpdate_whereSat_dead (svc : Service) (criteria0 : Option (JsObj CritValue))
    (data : JsObj Value) (options : QueryOptions) (now : Value) (row : Row)
    (hcd : svc.concealDeadResources = true)
    (ht : jsTruthy svc.deletedStatus = true)
    (hrow : rowGet row svc.statusField = svc.deletedStatus)
    (hco : options.conceal.getD true = true) :
    whereSat (bulkUpdate svc criteria0 data options now).whereClauses
      (bulkUpdate svc criteria0 data options now).args row = false := by
  simp only [bulkUpdate, hco, hcd, Bool.and_self, if_pos]
  exact whereSat_false_of_deadWitness_nil
    (mergeStatus_deadWitness svc (criteria0.getD []) _ row ht hrow)

theorem bulkDelete_whereSat_dead (svc : Service) (criteria0 : Option (JsObj CritValue))
    (options : QueryOptions) (now : Value) (row : Row)
    (hcd : svc.concealDeadResources = true)
    (ht : jsTruthy svc.deletedStatus = true)
    (hrow : rowGet row svc.statusField = svc.deletedStatus)
    (hco : options.conceal.getD true = true) :
    whereSat (bulkDelete svc criteria0 options now).whereClauses
      (bulkDelete svc criteria0 options now).args row = false := by
  rw [bulkDelete]
  exact bulkUpdate_whereSat_dead svc criteria0 _ options now row hcd ht hrow hco

theorem bulkDeletePermanently_whereSat_dead (svc : Service)
    (criteria0 : Option (JsObj CritValue)) (options : QueryOptions) (row : Row)
    (hcd : svc.concealDeadResources = true)
    (ht : jsTruthy svc.deletedStatus = true)
    (hrow : rowGet row svc.statusField = svc.deletedStatus)
    (hco : options.conceal.getD true = true) :
    whereSat (bulkDeletePermanently svc criteria0 options).whereClauses
      (bulkDeletePermanently svc criteria0 options).args row = false := by
  simp only [bulkDeletePermanently, hco, hcd, Bool.and_self, if_pos]
  exact whereSat_false_of_deadWitness_nil
    (mergeStatus_deadWitness svc (criteria0.getD []) [] row ht hrow)

/-- The same service with concealment switched off. -/
def noConceal (svc : Service) : Service :=
  { svc with concealDeadResources := false }

theorem find_conceal_false (svc : Service) (criteria0 : Option (JsObj CritValue))
    (options : QueryOptions) (hco : options.conceal = some false) :
    find svc criteria0 options = find (noConceal svc) criteria0 options := by
  simp [find, findWhere, findConceal, hco, noConceal]

theorem count_conceal_false (svc : Service) (criteria0 : Option (JsObj CritValue))
    (options : QueryOptions) (hco : options.conceal = some false) :
    count svc criteria0 options = count (noConceal svc) criteria0 options := by
  rw [count, count]
  exact find_conceal_false svc criteria0 _ (by simpa using hco)

theorem stampDoc_noConceal (svc : Service) (doc : JsObj Value) (now : Value) :
    stampDoc (noConceal svc) doc now = stampDoc svc doc now := rfl

theorem bulkUpdate_conceal_false (svc : Service) (criteria0 : Option (JsObj CritValue))
    (data : JsObj Value) (options : QueryOptions) (now : Value)
    (hco : options.conceal = some false) :
    bulkUpdate svc criteria0 data options now
      = bulkUpdate (noConceal svc) criteria0 data options now := by
  have hstamp : stampDoc (noConceal svc) data now = stampDoc svc data now := rfl
  simp only [noConceal] at hstamp
  simp [bulkUpdate, hco, noConceal, hstamp]

theorem bulkDelete_conceal_false (svc : Service) (criteria0 : Option (JsObj CritValue))
    (options : QueryOptions) (now : Value) (hco : options.conceal = some false) :
    bulkDelete svc criteria0 options now = bulkDelete (noConceal svc) criteria0 options now := by
  rw [bulkDelete, bulkDelete]
  exact bulkUpdate_conceal_false svc criteria0 _ options now hco

theorem bulkDeletePermanently_conceal_false (svc : Service)
    (criteria0 : Option (JsObj CritValue)) (options : QueryOptions)
    (hco : options.conceal = some false) :
    bulkDeletePermanently svc criteria0 options
      = bulkDeletePermanently (noConceal svc) criteria0 options := by
  simp [bulkDeletePermanently, hco, noConceal]

/-- A concrete service configured like the repository's test fixture:
defaults everywhere, concealment on. -/
def svcTest : Service :=
  { schema := "unittest_rel"
    table := "crud_service"
    idField := "id"
    statusField := "status"
    updatedField := some "updated"
    modifiableKeys := ["first_name", "last_name"]
    deletedStatus := .str "dead"
    concealDeadResources := true }

/-- A concrete tombstoned row. -/
def rowDead : Row := [("id", .str "x"), ("status", .str "dead")]

/-- C1: for every criteria and options, when concealment is enabled
(service configured with `concealDeadResources` true and the call's
`conceal` option not set to `false`), the WHERE clause built by `find`,
`count`, `bulkUpdate`, `bulkDelete` and `bulkDeletePermanently` constrains
the status field so that no row whose status field equals the deleted
status can match; passing `conceal: false` omits that constraint (the
query is the one a non-concealing service would build). -/
theorem claim1_concealment_excludes_dead (svc : Service)
    (criteria0 : Option (JsObj CritValue)) (data : JsObj Value)
    (options : QueryOptions) (now : Value) (row : Row)
    (hcd : svc.concealDeadResources = true)
    (ht : jsTruthy svc.deletedStatus = true)
    (hrow : rowGet row svc.statusField = svc.deletedStatus) :
    (options.conceal.getD true = true →
      whereSat (find svc criteria0 options).whereClauses
        (find svc criteria0 options).args row = false ∧
      whereSat (count svc criteria0 options).whereClauses
        (count svc criteria0 options).args row = false ∧
      whereSat (bulkUpdate svc criteria0 data options now).whereClauses
        (bulkUpdate svc criteria0 data options now).args row = false ∧
      whereSat (bulkDelete svc criteria0 options now).whereClauses
        (bulkDelete svc criteria0 options now).args row = false ∧
      whereSat (bulkDeletePermanently svc criteria0 options).whereClauses
        (bulkDeletePermanently svc criteria0 options).args row = false)
    ∧ (options.conceal = some false →
      find svc criteria0 options = find (noConceal svc) criteria0 options ∧
      count svc criteria0 options = count (noConceal svc) criteria0 options ∧
      bulkUpdate svc criteria0 data options now
        = bulkUpdate (noConceal svc) criteria0 data options now ∧
      bulkDelete svc criteria0 options now
        = bulkDelete (noConceal svc) criteria0 options now ∧
      bulkDeletePermanently svc criteria0 options
        = bulkDeletePermanently (noConceal svc) criteria0 options) := by
  constructor
  · intro hco
    exact ⟨find_whereSat_dead svc criteria0 options row hcd ht hrow hco,
      count_whereSat_dead svc criteria0 options row hcd ht hrow hco,
      bulkUpdate_whereSat_dead svc criteria0 data options now row hcd ht hrow hco,
      bulkDelete_whereSat_dead svc criteria0 options now row hcd ht hrow hco,
      bulkDeletePermanently_whereSat_dead svc criteria0 options row hcd ht hrow hco⟩
  · intro hco
    exact ⟨find_conceal_false svc criteria0 options hco,
      count_conceal_false svc criteria0 options hco,
      bulkUpdate_conceal_false svc criteria0 data options now hco,
      bulkDelete_conceal_false svc criteria0 options now hco,
      bulkDeletePermanently_conceal_false svc criteria0 options hco⟩

/-- Witness for C1 at a concrete service, criteria, data and dead row. -/
theorem claim1_witness :
    svcTest.concealDeadResources = true ∧
    jsTruthy svcTest.deletedStatus = true ∧
    rowGet rowDead svcTest.statusField = svcTest.deletedStatus ∧
    ((({} : QueryOptions).conceal.getD true = true →
      whereSat (find svcTest (some [("status", CritValue.scalar (Value.str "active"))]) {}).whereClauses
        (find svcTest (some [("status", CritValue.scalar (Value.str "active"))]) {}).args rowDead = false ∧
      whereSat (count svcTest (some [("status", CritValue.scalar (Value.str "active"))]) {}).whereClauses
        (count svcTest (some [("status", CritValue.scalar (Value.str "active"))]) {}).args rowDead = false ∧
      whereSat (bulkUpdate svcTest (some [("status", CritValue.scalar (Value.str "active"))])
          [("first_name", Value.str "bulkers")] {} (Value.date 1)).whereClauses
        (bulkUpdate svcTest (some [("status", CritValue.scalar (Value.str "active"))])
          [("first_name", Value.str "bulkers")] {} (Value.date 1)).args rowDead = false ∧
      whereSat (bulkDelete svcTest (some [("status", CritValue.scalar (Value.str "active"))]) {}
          (Value.date 1)).whereClauses
        (bulkDelete svcTest (some [("status", CritValue.scalar (Value.str "active"))]) {}
          (Value.date 1)).args rowDead = false ∧
      whereSat (bulkDeletePermanently svcTest
          (some [("status", CritValue.scalar (Value.str "active"))]) {}).whereClauses
        (bulkDeletePermanently svcTest
          (some [("status", CritValue.scalar (Value.str "active"))]) {}).args rowDead = false)
    ∧ (({} : QueryOptions).conceal = some false →
      find svcTest (some [("status", CritValue.scalar (Value.str "active"))]) {}
        = find (noConceal svcTest) (some [("status", CritValue.scalar (Value.str "active"))]) {} ∧
      count svcTest (some [("status", CritValue.scalar (Value.str "active"))]) {}
        = count (noConceal svcTest) (some [("status", CritValue.scalar (Value.str "active"))]) {} ∧
      bulkUpdate svcTest (some [("status", CritValue.scalar (Value.str "active"))])
          [("first_name", Value.str "bulkers")] {} (Value.date 1)
        = bulkUpdate (noConceal svcTest) (some [("status", CritValue.scalar (Value.str "active"))])
          [("first_name", Value.str "bulkers")] {} (Value.date 1) ∧
      bulkDelete svcTest (some [("status", CritValue.scalar (Value.str "active"))]) {} (Value.date 1)
        = bulkDelete (noConceal svcTest) (some [("status", CritValue.scalar (Value.str "active"))]) {}
          (Value.date 1) ∧
      bulkDeletePermanently svcTest (some [("status", CritValue.scalar (Value.str "active"))]) {}
        = bulkDeletePermanently (noConceal svcTest)
          (some [("status", CritValue.scalar (Value.str "active"))]) {})) :=
  ⟨rfl, by decide, by decide,
    claim1_concealment_excludes_dead svcTest
      (some [("status", CritValue.scalar (Value.str "active"))])
      [("first_name", Value.str "bulkers")] {} (Value.date 1) rowDead rfl (by decide) (by decide)⟩

theorem mergeStatus_stOk (svc : Service) (criteria : JsObj CritValue) (a0 : List Value) :
    stOk (mergeStatus svc criteria a0).2 := by
  cases hsv : objGet criteria svc.statusField with
  | none =>
      have hm : mergeStatus svc criteria a0
          = (objSet criteria svc.statusField (injectedStatus svc), [], a0) := by
        simp [mergeStatus, hsv]
      rw [hm]
      intro c hc
      simp at hc
  | some sv =>
      by_cases hct : critTruthy sv = true
      · have hm : mergeStatus svc criteria a0
            = (objDelete criteria svc.statusField,
               [Clause.compositeStatus svc.statusField (a0.length + 1, sv.asArg)
                  (a0.length + 2, svc.deletedStatus)],
               a0 ++ [sv.asArg, svc.deletedStatus]) := by
          simp [mergeStatus, hsv, hct]
        rw [hm]
        intro c hc
        simp only [List.mem_singleton] at hc
        subst hc
        intro p hp
        simp only [clauseParams, List.mem_cons, List.not_mem_nil, or_false] at hp
        rcases hp with h | h
        · subst h
          refine ⟨by omega, ?_⟩
          have h1 : a0.length + 1 - 1 = a0.length := by omega
          rw [h1, List.getElem?_append_right (Nat.le_refl _)]
          simp
        · subst h
          refine ⟨by omega, ?_⟩
          have h1 : a0.length + 2 - 1 = a0.length + 1 := by omega
          rw [h1, List.getElem?_append_right (by omega)]
          have h2 : a0.length + 1 - a0.length = 1 := by omega
          rw [h2]
          simp
      · have hm : mergeStatus svc criteria a0
            = (objSet criteria svc.statusField (injectedStatus svc), [], a0) := by
          simp [mergeStatus, hsv, hct]
        rw [hm]
        intro c hc
        simp at hc

theorem findConceal_stOk (svc : Service) (criteria0 : Option (JsObj CritValue)) (conceal : Bool) :
    stOk (findConceal svc criteria0 conceal).2 := by
  by_cases h : (svc.concealDeadResources && conceal) = true
  · cases criteria0 with
    | none =>
        have hfc : findConceal svc none conceal
            = (some [(svc.statusField, injectedStatus svc)], [], []) := by
          simp [findConceal, h]
        rw [hfc]
        intro c hc
        simp at hc
    | some c =>
        have hfc : findConceal svc (some c) conceal
            = (some (mergeStatus svc c []).1, (mergeStatus svc c []).2) := by
          simp [findConceal, h]
        rw [hfc]
        exact mergeStatus_stOk svc c []
  · have hfc : findConceal svc criteria0 conceal = (criteria0, [], []) := by
      simp [findConceal, h]
    rw [hfc]
    intro c hc
    simp at hc

theorem findWhere_stOk (svc : Service) (criteria0 : Option (JsObj CritValue)) (conceal : Bool) :
    stOk (findWhere svc criteria0 conceal) := by
  rw [findWhere]
  exact buildCriteria_ok _ _ _ (findConceal_stOk svc criteria0 conceal)

/-- C3: in the statement produced by `find`, the k-th positional
placeholder always refers to the k-th value of the argument vector: every
clause's recorded placeholders name exactly their appended arguments, and
the OFFSET and LIMIT parameters are appended as trailing positional
parameters numbered after all WHERE arguments. -/
theorem claim3_placeholders_align (svc : Service) (criteria0 : Option (JsObj CritValue))
    (options : QueryOptions) :
    (∀ c ∈ (find svc criteria0 options).whereClauses, paramsOk (find svc criteria0 options).args c)
    ∧ (find svc criteria0 options).whereClauses
        = (findWhere svc criteria0 (options.conceal.getD true)).1
    ∧ (find svc criteria0 options).args
        = (findWhere svc criteria0 (options.conceal.getD true)).2
          ++ options.skip.toList ++ options.take.toList
    ∧ (∀ v, options.skip = some v → (find svc criteria0 options).offsetParam
        = some ((findWhere svc criteria0 (options.conceal.getD true)).2.length + 1, v))
    ∧ (∀ v, options.take = some v → (find svc criteria0 options).limitParam
        = some ((findWhere svc criteria0 (options.conceal.getD true)).2.length
            + options.skip.toList.length + 1, v))
    ∧ (∀ i v, (find svc criteria0 options).offsetParam = some (i, v) →
        (findWhere svc criteria0 (options.conceal.getD true)).2.length < i
        ∧ (find svc criteria0 options).args[i - 1]? = some v)
    ∧ (∀ i v, (find svc criteria0 options).limitParam = some (i, v) →
        (findWhere svc criteria0 (options.conceal.getD true)).2.length < i
        ∧ (find svc criteria0 options).args[i - 1]? = some v) := by
  have hok := findWhere_stOk svc criteria0 (options.conceal.getD true)
  have hw : (find svc criteria0 options).whereClauses
      = (findWhere svc criteria0 (options.conceal.getD true)).1 := by
    simp [find]
  have ha : (find svc criteria0 options).args
      = ((findWhere svc criteria0 (options.conceal.getD true)).2 ++ options.skip.toList)
        ++ options.take.toList := by
    simp [find]
  refine ⟨?_, hw, ?_, ?_, ?_, ?_, ?_⟩
  · intro c hc
    rw [hw] at hc
    rw [ha, List.append_assoc]
    exact paramsOk_append _ (hok c hc)
  · rw [ha]
  · intro v hv
    simp [find, hv]
  · intro v hv
    simp [find, hv]
  · intro i v hoff
    cases hs : options.skip with
    | none => simp [find, hs] at hoff
    | some v0 =>
        have : (find svc criteria0 options).offsetParam
            = some ((findWhere svc criteria0 (options.conceal.getD true)).2.length + 1, v0) := by
          simp [find, hs]
        rw [this] at hoff
        have hiv : (findWhere svc criteria0 (options.conceal.getD true)).2.length + 1 = i
            ∧ v0 = v := by
          have := Option.some.inj hoff
          exact ⟨congrArg Prod.fst this, congrArg Prod.snd this⟩
        obtain ⟨hi, hv⟩ := hiv
        subst hi
        subst hv
        refine ⟨by omega, ?_⟩
        rw [ha, hs]
        have h1 : (findWhere svc criteria0 (options.conceal.getD true)).2.length + 1 - 1
            = (findWhere svc criteria0 (options.conceal.getD true)).2.length := by omega
        rw [h1]
        rw [List.getElem?_append_left (by simp)]
        exact List.getElem?_concat_length
          (findWhere svc criteria0 (options.conceal.getD true)).2 v0
  · intro i v hlim
    cases ht : options.take with
    | none => simp [find, ht] at hlim
    | some v0 =>
        have : (find svc criteria0 options).limitParam
            = some (((findWhere svc criteria0 (options.conceal.getD true)).2
                ++ options.skip.toList).length + 1, v0) := by
          simp [find, ht]
        rw [this] at hlim
        have hiv : ((findWhere svc criteria0 (options.conceal.getD true)).2
            ++ options.skip.toList).length + 1 = i ∧ v0 = v := by
          have := Option.some.inj hlim
          exact ⟨congrArg Prod.fst this, congrArg Prod.snd this⟩
        obtain ⟨hi, hv⟩ := hiv
        subst hi
        subst hv
        refine ⟨by simp; omega, ?_⟩
        rw [ha, ht]
        have h1 : ((findWhere svc criteria0 (options.conceal.getD true)).2
            ++ options.skip.toList).length + 1 - 1
            = ((findWhere svc criteria0 (options.conceal.getD true)).2
                ++ options.skip.toList).length := by omega
        rw [h1]
        have := List.getElem?_concat_length
          ((findWhere svc criteria0 (options.conceal.getD true)).2 ++ options.skip.toList) v0
        simpa using this

/-- Witness for C3 at a concrete criteria with both pagination options. -/
theorem claim3_witness :
    (findWhere svcTest (some [("name", CritValue.scalar (Value.str "a"))]) true).2.length = 2 ∧
    (find svcTest (some [("name", CritValue.scalar (Value.str "a"))])
        { skip := some (Value.num 7), take := some (Value.num 9) }).offsetParam
      = some (3, Value.num 7) ∧
    (find svcTest (some [("name", CritValue.scalar (Value.str "a"))])
        { skip := some (Value.num 7), take := some (Value.num 9) }).limitParam
      = some (4, Value.num 9) ∧
    (find svcTest (some [("name", CritValue.scalar (Value.str "a"))])
        { skip := some (Value.num 7), take := some (Value.num 9) }).args[2]?
      = some (Value.num 7) ∧
    (find svcTest (some [("name", CritValue.scalar (Value.str "a"))])
        { skip := some (Value.num 7), take := some (Value.num 9) }).args[3]?
      = some (Value.num 9) := by
  have h := claim3_placeholders_align svcTest
    (some [("name", CritValue.scalar (Value.str "a"))])
    { skip := some (Value.num 7), take := some (Value.num 9) }
  have hoff : (find svcTest (some [("name", CritValue.scalar (Value.str "a"))])
      { skip := some (Value.num 7), take := some (Value.num 9) }).offsetParam
      = some (3, Value.num 7) :=
    (h.2.2.2.1 (Value.num 7) rfl).trans (by decide)
  have hlim : (find svcTest (some [("name", CritValue.scalar (Value.str "a"))])
      { skip := some (Value.num 7), take := some (Value.num 9) }).limitParam
      = some (4, Value.num 9) :=
    (h.2.2.2.2.1 (Value.num 9) rfl).trans (by decide)
  exact ⟨by decide, hoff, hlim,
    (h.2.2.2.2.2.1 3 (Value.num 7) hoff).2,
    (h.2.2.2.2.2.2 4 (Value.num 9) hlim).2⟩

/-- C4 counterexample: a criteria that constrains the status field to the
falsy scalar `""` is not rewritten into the composite pair; the merge
replaces the entry with the injected `$ne` constraint instead. -/
theorem claim4_counterexample :
    mergeStatus svcTest [("status", CritValue.scalar (Value.str ""))] []
      = ([("status", injectedStatus svcTest)], [], []) ∧
    mergeStatus svcTest [("status", CritValue.scalar (Value.str ""))] []
      ≠ ([], [Clause.compositeStatus "status" (1, Value.str "") (2, Value.str "dead")],
         [Value.str "", Value.str "dead"]) := by
  constructor
  · decide
  · decide

/-- C4 (amended): when concealment is active, a criteria entry
constraining the status field to a JS-truthy scalar `x` is rewritten into
the composite clause `status = x AND status != deletedStatus` and removed
from the criteria; a falsy scalar constraint, like an absent one, is
instead replaced by the injected `statusField: \x7b $ne: deletedStatus \x7d`
entry, and an absent criteria gets a fresh object holding only that
entry. -/
theorem claim4_merge_status_amended (svc : Service) (c : JsObj CritValue) (a0 : List Value)
    (hcd : svc.concealDeadResources = true) :
    (∀ x : Value, objGet c svc.statusField = some (CritValue.scalar x) → jsTruthy x = true →
        mergeStatus svc c a0
          = (objDelete c svc.statusField,
             [Clause.compositeStatus svc.statusField (a0.length + 1, x)
                (a0.length + 2, svc.deletedStatus)],
             a0 ++ [x, svc.deletedStatus]))
    ∧ ((objGet c svc.statusField = none ∨
        (∃ x : Value, objGet c svc.statusField = some (CritValue.scalar x)
          ∧ jsTruthy x = false)) →
        mergeStatus svc c a0 = (objSet c svc.statusField (injectedStatus svc), [], a0))
    ∧ findConceal svc none true = (some [(svc.statusField, injectedStatus svc)], [], []) := by
  refine ⟨?_, ?_, ?_⟩
  · intro x hx ht
    simp [mergeStatus, hx, critTruthy, ht, CritValue.asArg]
  · intro h
    rcases h with hx | ⟨x, hx, ht⟩
    · simp [mergeStatus, hx]
    · simp [mergeStatus, hx, critTruthy, ht]
  · simp [findConceal, hcd]

/-- Witness for C4 at a truthy scalar status constraint. -/
theorem claim4_witness :
    svcTest.concealDeadResources = true ∧
    objGet [("status", CritValue.scalar (Value.str "active"))] svcTest.statusField
      = some (CritValue.scalar (Value.str "active")) ∧
    jsTruthy (Value.str "active") = true ∧
    mergeStatus svcTest [("status", CritValue.scalar (Value.str "active"))] []
      = ([], [Clause.compositeStatus "status" (1, Value.str "active") (2, Value.str "dead")],
         [Value.str "active", Value.str "dead"]) := by
  have h := claim4_merge_status_amended svcTest
    [("status", CritValue.scalar (Value.str "active"))] [] rfl
  exact ⟨rfl, by decide, by decide,
    (h.1 (Value.str "active") (by decide) (by decide)).trans (by decide)⟩

/-- C5 counterexample: the operator object `\x7b $gt: 0 \x7d` appends no
clause and no argument, because the range branches test JS truthiness of
the operand. -/
theorem claim5_counterexample :
    compileValue "age" (CritValue.obj none (some (Value.num 0)) none none none none none) true
      ([], []) = ([], []) := by
  decide

/-- C5 (amended): for every field and every JS-truthy value `v`, an
operator object whose sole key is a range operator appends exactly one
comparison clause and exactly one argument. -/
theorem claim5_range_operator_amended (field : String) (v : Value)
    (st : List Clause × List Value) (ht : jsTruthy v = true) :
    compileValue field (CritValue.obj none (some v) none none none none none) true st
      = (st.1 ++ [Clause.cmp field .gt (st.2.length + 1, v)], st.2 ++ [v])
    ∧ compileValue field (CritValue.obj none none (some v) none none none none) true st
      = (st.1 ++ [Clause.cmp field .gte (st.2.length + 1, v)], st.2 ++ [v])
    ∧ compileValue field (CritValue.obj none none none (some v) none none none) true st
      = (st.1 ++ [Clause.cmp field .lt (st.2.length + 1, v)], st.2 ++ [v])
    ∧ compileValue field (CritValue.obj none none none none (some v) none none) true st
      = (st.1 ++ [Clause.cmp field .lte (st.2.length + 1, v)], st.2 ++ [v]) := by
  refine ⟨?_, ?_, ?_, ?_⟩ <;> simp [compileValue, compileNe, pushCmp, pushCmpi, ht]

/-- Witness for C5 at `\x7b $gt: 5 \x7d`. -/
theorem claim5_witness :
    jsTruthy (Value.num 5) = true ∧
    compileValue "age" (CritValue.obj none (some (Value.num 5)) none none none none none) true
      ([], []) = ([Clause.cmp "age" .gt (1, Value.num 5)], [Value.num 5]) := by
  have h := claim5_range_operator_amended "age" (Value.num 5) ([], []) (by decide)
  exact ⟨by decide, h.1.trans (by decide)⟩

theorem mem_truthyKeys (l : JsObj Value) (k : String) :
    k ∈ (l.filter (fun p => jsTruthy p.2)).map (fun p => p.1)
      ↔ ∃ v, (k, v) ∈ l ∧ jsTruthy v = true := by
  constructor
  · intro h
    obtain ⟨p, hp, hk⟩ := List.mem_map.mp h
    obtain ⟨hmem, htr⟩ := List.mem_filter.mp hp
    refine ⟨p.2, ?_, htr⟩
    rw [← hk]
    exact hmem
  · intro h
    obtain ⟨v, hmem, htr⟩ := h
    exact List.mem_map.mpr ⟨(k, v), List.mem_filter.mpr ⟨hmem, htr⟩, rfl⟩

/-- The service from the test fixture, but keyed by a `uuid` column. -/
def svcUuid : Service := { svcTest with idField := "uuid" }

/-- C7 counterexample: with the id field configured as `uuid`, the
projection force-includes the literal column `id`, not the configured id
field: `uuid` is absent from the projected columns even though the spec
did not exclude it. -/
theorem claim7_counterexample :
    (find svcUuid none { fields := some [("name", Value.num 1)] }).projection
      = some ["name", "id"] ∧
    "uuid" ∉ ["name", "id"] := by
  constructor
  · decide
  · decide

/-- C7 (amended): outside count mode, when no field spec is given `find`
selects all columns (`*`); when a spec is given, the projected columns
are exactly the keys of the spec whose value is JS-truthy, after the
literal key `id` (not the configured id field) has been added with value
1 whenever the spec has no `id` key. -/
theorem claim7_projection_amended (svc : Service) (criteria0 : Option (JsObj CritValue))
    (options : QueryOptions) (fs : JsObj Value)
    (hmode : options.mode = none) :
    (options.fields = none → (find svc criteria0 options).projection = none
        ∧ (find svc criteria0 options).fieldsSql = "*")
    ∧ (options.fields = some fs →
        (find svc criteria0 options).projection
          = some ((((if (objGet fs "id").isNone then objSet fs "id" (Value.num 1) else fs)).filter
              (fun p => jsTruthy p.2)).map (fun p => p.1))
        ∧ (∀ k, k ∈ (((if (objGet fs "id").isNone then objSet fs "id" (Value.num 1)
              else fs)).filter (fun p => jsTruthy p.2)).map (fun p => p.1)
            ↔ ∃ v, (k, v) ∈ (if (objGet fs "id").isNone then objSet fs "id" (Value.num 1) else fs)
                ∧ jsTruthy v = true)
        ∧ ((objGet fs "id").isNone →
            "id" ∈ (((if (objGet fs "id").isNone then objSet fs "id" (Value.num 1)
              else fs)).filter (fun p => jsTruthy p.2)).map (fun p => p.1))) := by
  constructor
  · intro hf
    constructor
    · simp [find, hmode, hf]
    · simp [find, hmode, hf]
  · intro hf
    refine ⟨by simp [find, hmode, hf], fun k => mem_truthyKeys _ k, ?_⟩
    intro hid
    rw [if_pos hid]
    exact (mem_truthyKeys _ "id").mpr ⟨Value.num 1, objSet_mem fs "id" (Value.num 1), rfl⟩

/-- Witness for C7 at a concrete field spec without an `id` key. -/
theorem claim7_witness :
    (({ fields := some [("username", Value.num 1), ("email", Value.num 0)] } :
        QueryOptions).mode = none) ∧
    (find svcTest none { fields := some [("username", Value.num 1), ("email", Value.num 0)] }).projection
      = some ["username", "id"] ∧
    (find svcTest none { fields := none }).projection = none ∧
    (find svcTest none { fields := none }).fieldsSql = "*" := by
  have h := claim7_projection_amended svcTest none
    { fields := some [("username", Value.num 1), ("email", Value.num 0)] }
    [("username", Value.num 1), ("email", Value.num 0)] rfl
  have h0 := claim7_projection_amended svcTest none { fields := none } [] rfl
  exact ⟨rfl, ((h.2 rfl).1).trans (by decide), (h0.1 rfl).1, (h0.1 rfl).2⟩

/-- C9: `find` consumes its options in place (all six consumed keys are
gone afterwards, so an options object that carried any of them is no
longer the same mapping), and when the concealment merge runs on a given
criteria it either deletes the status entry or writes the injected
constraint into it, so the caller's criteria is no longer the same
mapping either. -/
theorem claim9_find_mutates_inputs (svc : Service) (criteria0 : Option (JsObj CritValue))
    (options : QueryOptions) :
    (find svc criteria0 options).options = ({} : QueryOptions)
    ∧ (options ≠ ({} : QueryOptions) → (find svc criteria0 options).options ≠ options)
    ∧ (svc.concealDeadResources = true → options.conceal.getD true = true →
        ∀ c, criteria0 = some c →
          ∃ c', (find svc criteria0 options).criteria = some c'
            ∧ c' ≠ c
            ∧ (c' = objDelete c svc.statusField
               ∨ c' = objSet c svc.statusField (injectedStatus svc))) := by
  have hopts : (find svc criteria0 options).options = ({} : QueryOptions) := by
    simp [find]
  refine ⟨hopts, ?_, ?_⟩
  · intro hne
    rw [hopts]
    exact fun he => hne he.symm
  · intro hcd hco c hc
    subst hc
    have hcrit : (find svc (some c) options).criteria = (findConceal svc (some c) true).1 := by
      simp [find, hco]
    cases hsv : objGet c svc.statusField with
    | some sv =>
        by_cases hct : critTruthy sv = true
        · refine ⟨objDelete c svc.statusField, ?_, ?_, Or.inl rfl⟩
          · rw [hcrit]
            simp [findConceal, hcd, mergeStatus, hsv, hct]
          · intro he
            have hgd := objGet_objDelete_self c svc.statusField
            rw [he, hsv] at hgd
            exact Option.noConfusion hgd
        · refine ⟨objSet c svc.statusField (injectedStatus svc), ?_, ?_, Or.inr rfl⟩
          · rw [hcrit]
            simp [findConceal, hcd, mergeStatus, hsv, hct]
          · intro he
            have hgs := objGet_objSet_self c svc.statusField (injectedStatus svc)
            rw [he, hsv] at hgs
            have hsveq : sv = injectedStatus svc := by
              injection hgs
            rw [hsveq] at hct
            exact hct rfl
    | none =>
        refine ⟨objSet c svc.statusField (injectedStatus svc), ?_, ?_, Or.inr rfl⟩
        · rw [hcrit]
          simp [findConceal, hcd, mergeStatus, hsv]
        · intro he
          have hgs := objGet_objSet_self c svc.statusField (injectedStatus svc)
          rw [he, hsv] at hgs
          exact Option.noConfusion hgs

/-- Witness for C9 at a concrete options object carrying `skip` and a
criteria with a truthy status entry. -/
theorem claim9_witness :
    (({ skip := some (Value.num 1) } : QueryOptions) ≠ ({} : QueryOptions)) ∧
    (find svcTest (some [("status", CritValue.scalar (Value.str "active"))])
        { skip := some (Value.num 1) }).options = ({} : QueryOptions) ∧
    (find svcTest (some [("status", CritValue.scalar (Value.str "active"))])
        { skip := some (Value.num 1) }).options ≠ { skip := some (Value.num 1) } ∧
    (∃ c', (find svcTest (some [("status", CritValue.scalar (Value.str "active"))])
        { skip := some (Value.num 1) }).criteria = some c'
      ∧ c' ≠ [("status", CritValue.scalar (Value.str "active"))]
      ∧ (c' = objDelete [("status", CritValue.scalar (Value.str "active"))] svcTest.statusField
         ∨ c' = objSet [("status", CritValue.scalar (Value.str "active"))] svcTest.statusField
             (injectedStatus svcTest))) := by
  have h := claim9_find_mutates_inputs svcTest
    (some [("status", CritValue.scalar (Value.str "active"))]) { skip := some (Value.num 1) }
  exact ⟨by decide, h.1, h.2.1 (by decide),
    h.2.2 rfl rfl [("status", CritValue.scalar (Value.str "active"))] rfl⟩

/-- Applying a SET list built from `setData` to a row is the same as
assigning each `setData` entry onto the row in order. -/
def objMerge (r : Row) (sd : JsObj Value) : Row :=
  sd.foldl (fun r p => objSet r p.1 p.2) r

theorem setRow_eq_objMerge (sd : JsObj Value) (r : Row) (a : List Value) :
    setRow r (buildSets sd a).1 = objMerge r sd := by
  induction sd generalizing r a with
  | nil => rfl
  | cons p rest ih =>
      obtain ⟨f, v⟩ := p
      simp only [buildSets, setRow, objMerge, List.foldl_cons]
      exact ih (objSet r f v) (a ++ [v])

theorem objGet_eq_none_iff {α : Type} (l : JsObj α) (k : String) :
    objGet l k = none ↔ k ∉ l.map Prod.fst := by
  induction l with
  | nil => simp [objGet_nil]
  | cons p rest ih =>
      rw [objGet_cons]
      by_cases hp : p.1 = k
      · simp [hp]
      · simp only [if_neg hp, List.map_cons, List.mem_cons, ih]
        constructor
        · intro h hor
          rcases hor with h1 | h2
          · exact hp h1.symm
          · exact h h2
        · intro h h2
          exact h (Or.inr h2)

theorem objMerge_objGet_not_mem (sd : JsObj Value) (r : Row) (k : String)
    (hk : k ∉ sd.map Prod.fst) : objGet (objMerge r sd) k = objGet r k := by
  induction sd generalizing r with
  | nil => rfl
  | cons p rest ih =>
      simp only [List.map_cons, List.mem_cons] at hk
      push_neg at hk
      rw [objMerge, List.foldl_cons]
      have step : objGet (objMerge (objSet r p.1 p.2) rest) k = objGet (objSet r p.1 p.2) k :=
        ih _ hk.2
      rw [objMerge] at step
      rw [step, objGet_objSet_ne r p.1 k p.2 hk.1]

theorem objMerge_objGet_mem (sd : JsObj Value) (r : Row) (k : String) (v : Value)
    (hnd : (sd.map Prod.fst).Nodup) (hget : objGet sd k = some v) :
    objGet (objMerge r sd) k = some v := by
  induction sd generalizing r with
  | nil => simp [objGet_nil] at hget
  | cons p rest ih =>
      rw [objGet_cons] at hget
      simp only [List.map_cons, List.nodup_cons] at hnd
      by_cases hp : p.1 = k
      · rw [if_pos hp] at hget
        injection hget with hv
        rw [objMerge, List.foldl_cons]
        have hk : k ∉ rest.map Prod.fst := by
          rw [← hp]
          exact hnd.1
        have step := objMerge_objGet_not_mem rest (objSet r p.1 p.2) k hk
        rw [objMerge] at step
        rw [step, ← hp, objGet_objSet_self, hv]
      · rw [if_neg hp] at hget
        rw [objMerge, List.foldl_cons]
        exact ih (objSet r p.1 p.2) hnd.2 hget

theorem objSet_keys_mem {α : Type} (o : JsObj α) (k : String) (v : α) (q : String)
    (h : q ∈ (objSet o k v).map Prod.fst) : q = k ∨ q ∈ o.map Prod.fst := by
  induction o with
  | nil =>
      simp [objSet] at h
      exact Or.inl h
  | cons p rest ih =>
      by_cases hp : p.1 = k
      · simp only [objSet, if_pos hp, List.map_cons, List.mem_cons] at h
        rcases h with h1 | h2
        · exact Or.inl h1
        · exact Or.inr (List.mem_cons_of_mem _ h2)
      · simp only [objSet, if_neg hp, List.map_cons, List.mem_cons] at h
        rcases h with h1 | h2
        · exact Or.inr (by simp [h1])
        · rcases ih h2 with h3 | h4
          · exact Or.inl h3
          · exact Or.inr (List.mem_cons_of_mem _ h4)

theorem objSet_keys_nodup {α : Type} (o : JsObj α) (k : String) (v : α)
    (h : (o.map Prod.fst).Nodup) : ((objSet o k v).map Prod.fst).Nodup := by
  induction o with
  | nil => simp [objSet]
  | cons p rest ih =>
      simp only [List.map_cons, List.nodup_cons] at h
      by_cases hp : p.1 = k
      · simp only [objSet, if_pos hp, List.map_cons, List.nodup_cons]
        refine ⟨?_, h.2⟩
        rw [← hp]
        exact h.1
      · simp only [objSet, if_neg hp, List.map_cons, List.nodup_cons]
        refine ⟨?_, ih h.2⟩
        intro hmem
        rcases objSet_keys_mem rest k v p.1 hmem with h1 | h2
        · exact hp h1
        · exact h.1 h2

theorem objDelete_keys_nodup {α : Type} (o : JsObj α) (k : String)
    (h : (o.map Prod.fst).Nodup) : ((objDelete o k).map Prod.fst).Nodup := by
  have hsub : (objDelete o k).Sublist o := List.filter_sublist o
  exact h.sublist (hsub.map Prod.fst)

theorem stampDoc_keys_nodup (svc : Service) (doc : JsObj Value) (now : Value)
    (h : (doc.map Prod.fst).Nodup) : ((stampDoc svc doc now).map Prod.fst).Nodup := by
  cases hf : svc.updatedField with
  | none => simpa [stampDoc, hf] using h
  | some f =>
      by_cases he : f.isEmpty
      · simpa [stampDoc, hf, he] using h
      · simp only [stampDoc, hf, if_neg he]
        exact objSet_keys_nodup doc f now h

theorem update_doc_eq (svc : Service) (doc : Row) (data : Option Row) (now : Value) :
    (update svc doc data now).doc = stampDoc svc (applyUpdates svc doc data) now := by
  cases h : objGet (stampDoc svc (applyUpdates svc doc data) now) svc.idField <;>
    simp [update, h]

theorem stampDoc_objGet_ne (svc : Service) (doc : JsObj Value) (now : Value) (k : String)
    (h : ∀ f, svc.updatedField = some f → f ≠ k) :
    objGet (stampDoc svc doc now) k = objGet doc k := by
  cases hf : svc.updatedField with
  | none => simp [stampDoc, hf]
  | some f =>
      by_cases he : f.isEmpty
      · simp [stampDoc, hf, he]
      · simp only [stampDoc, hf, if_neg he]
        exact objGet_objSet_ne doc f k now (fun hh => h f hf hh.symm)

theorem foldl_patch_preserve (keys : List String) (d : Row) (doc : Row) (k : String)
    (hk : k ∉ keys) :
    objGet (keys.foldl (fun doc property =>
      match objGet d property with
      | some v => if jsTruthy v then objSet doc property v else doc
      | none => doc) doc) k = objGet doc k := by
  induction keys generalizing doc with
  | nil => rfl
  | cons p rest ih =>
      have hp : k ≠ p := fun h => hk (by rw [h]; exact List.mem_cons_self p rest)
      have hrest : k ∉ rest := fun h => hk (List.mem_cons_of_mem _ h)
      rw [List.foldl_cons, ih _ hrest]
      cases hd : objGet d p with
      | none => rfl
      | some v =>
          by_cases ht : jsTruthy v = true
          · simp only [ht, if_pos]
            exact objGet_objSet_ne doc p k v hp
          · simp only [Bool.not_eq_true] at ht
            simp [ht]

theorem applyUpdates_objGet_not_mem (svc : Service) (doc : Row) (data : Option Row)
    (k : String) (hk : k ∉ svc.modifiableKeys) :
    objGet (applyUpdates svc doc data) k = objGet doc k := by
  cases data with
  | none => rfl
  | some d => exact foldl_patch_preserve svc.modifiableKeys d doc k hk

theorem foldl_patch_nodup (keys : List String) (d : Row) (doc : Row)
    (h : (doc.map Prod.fst).Nodup) :
    ((keys.foldl (fun doc property =>
      match objGet d property with
      | some v => if jsTruthy v then objSet doc property v else doc
      | none => doc) doc).map Prod.fst).Nodup := by
  induction keys generalizing doc with
  | nil => exact h
  | cons p rest ih =>
      rw [List.foldl_cons]
      apply ih
      cases hd : objGet d p with
      | none => exact h
      | some v =>
          by_cases ht : jsTruthy v = true
          · simp only [ht, if_pos]
            exact objSet_keys_nodup doc p v h
          · simp only [Bool.not_eq_true] at ht
            simpa [ht] using h

theorem applyUpdates_keys_nodup (svc : Service) (doc : Row) (data : Option Row)
    (h : (doc.map Prod.fst).Nodup) : ((applyUpdates svc doc data).map Prod.fst).Nodup := by
  cases data with
  | none => exact h
  | some d => exact foldl_patch_nodup svc.modifiableKeys d doc h

theorem update_missing_id_error (svc : Service) (doc : Row) (data : Option Row)
    (now : Value)
    (hid : objGet doc svc.idField = none)
    (hmod : svc.idField ∉ svc.modifiableKeys)
    (hupd : ∀ f, svc.updatedField = some f → f ≠ svc.idField) :
    (update svc doc data now).result
      = Except.error "PostgresCrudService: Cannot update row if id field not provided" := by
  have hid2 : objGet (stampDoc svc (applyUpdates svc doc data) now) svc.idField = none := by
    rw [stampDoc_objGet_ne svc _ now svc.idField hupd]
    rw [applyUpdates_objGet_not_mem svc doc data svc.idField hmod]
    exact hid
  simp [update, hid2]

/-- C8: for every row object lacking the configured id field, `update`
and `deletePermanently` fail immediately and locally with a descriptive
error and produce no statement to execute (the error is returned before
any query is built; there is no retry path). -/
theorem claim8_missing_id_fails_locally (svc : Service) (doc : Row) (data : Option Row)
    (now : Value)
    (hid : objGet doc svc.idField = none)
    (hmod : svc.idField ∉ svc.modifiableKeys)
    (hupd : ∀ f, svc.updatedField = some f → f ≠ svc.idField) :
    (update svc doc data now).result
      = Except.error "PostgresCrudService: Cannot update row if id field not provided"
    ∧ deletePermanently svc doc
      = Except.error "PostgresCrudService: Cannot delete row if id field not provided" := by
  constructor
  · exact update_missing_id_error svc doc data now hid hmod hupd
  · simp [deletePermanently, hid]

/-- A concrete row lacking the id column. -/
def docNoId : Row := [("first_name", Value.str "unit")]

/-- Witness for C8 at a concrete id-less row. -/
theorem claim8_witness :
    objGet docNoId svcTest.idField = none ∧
    svcTest.idField ∉ svcTest.modifiableKeys ∧
    (∀ f, svcTest.updatedField = some f → f ≠ svcTest.idField) ∧
    (update svcTest docNoId none (Value.date 5)).result
      = Except.error "PostgresCrudService: Cannot update row if id field not provided" ∧
    deletePermanently svcTest docNoId
      = Except.error "PostgresCrudService: Cannot delete row if id field not provided" := by
  have hupd : ∀ f, svcTest.updatedField = some f → f ≠ svcTest.idField := by
    intro f hf
    injection hf with h
    rw [← h]
    decide
  have h := claim8_missing_id_fails_locally svcTest docNoId none (Value.date 5)
    (by decide) (by decide) hupd
  exact ⟨by decide, by decide, hupd, h.1, h.2⟩

/-- C10: `update` applies the patch and stamps the updated field onto the
caller's row before checking for the id, so when it rejects for a missing
id the caller's row object has already been mutated: the returned row is
the patched-and-stamped object, it carries the fresh timestamp, and it
differs from the row that was passed in. -/
theorem claim10_update_mutates_before_id_check (svc : Service) (doc : Row) (data : Option Row)
    (now : Value) (f : String)
    (hf : svc.updatedField = some f) (hne : f.isEmpty = false)
    (hid : objGet doc svc.idField = none)
    (hmod : svc.idField ∉ svc.modifiableKeys)
    (hfid : f ≠ svc.idField)
    (hnow : objGet doc f ≠ some now) :
    (update svc doc data now).result
      = Except.error "PostgresCrudService: Cannot update row if id field not provided"
    ∧ (update svc doc data now).doc = objSet (applyUpdates svc doc data) f now
    ∧ objGet (update svc doc data now).doc f = some now
    ∧ (update svc doc data now).doc ≠ doc := by
  have hupd : ∀ g, svc.updatedField = some g → g ≠ svc.idField := by
    intro g hg
    rw [hf] at hg
    injection hg with h
    rw [← h]
    exact hfid
  have herr := update_missing_id_error svc doc data now hid hmod hupd
  have hdoc : (update svc doc data now).doc = objSet (applyUpdates svc doc data) f now := by
    rw [update_doc_eq]
    simp [stampDoc, hf, hne]
  refine ⟨herr, hdoc, ?_, ?_⟩
  · rw [hdoc]
    exact objGet_objSet_self _ f now
  · intro he
    apply hnow
    rw [← he, hdoc]
    exact objGet_objSet_self _ f now

/-- Witness for C10 at a concrete id-less row with a patch. -/
theorem claim10_witness :
    svcTest.updatedField = some "updated" ∧
    ("updated").isEmpty = false ∧
    objGet docNoId svcTest.idField = none ∧
    svcTest.idField ∉ svcTest.modifiableKeys ∧
    "updated" ≠ svcTest.idField ∧
    objGet docNoId "updated" ≠ some (Value.date 9) ∧
    (update svcTest docNoId (some [("first_name", Value.str "patched")])
        (Value.date 9)).result
      = Except.error "PostgresCrudService: Cannot update row if id field not provided" ∧
    (update svcTest docNoId (some [("first_name", Value.str "patched")])
        (Value.date 9)).doc
      = objSet (applyUpdates svcTest docNoId (some [("first_name", Value.str "patched")]))
          "updated" (Value.date 9) ∧
    objGet (update svcTest docNoId (some [("first_name", Value.str "patched")])
        (Value.date 9)).doc "updated" = some (Value.date 9) ∧
    (update svcTest docNoId (some [("first_name", Value.str "patched")])
        (Value.date 9)).doc ≠ docNoId := by
  have h := claim10_update_mutates_before_id_check svcTest docNoId
    (some [("first_name", Value.str "patched")]) (Value.date 9) "updated"
    rfl (by decide) (by decide) (by decide) (by decide) (by decide)
  exact ⟨rfl, by decide, by decide, by decide, by decide, by decide,
    h.1, h.2.1, h.2.2.1, h.2.2.2⟩

/-- The construction options of the test fixture, but passing
`updatedField: null`. -/
def optsNullUpdated : CrudOptions :=
  { schema := some "unittest_rel", table := some "crud_service", updatedField := none }

/-- The service the constructor actually produces from `optsNullUpdated`. -/
def svcNullUpdated : Service :=
  { schema := "unittest_rel"
    table := "crud_service"
    idField := "id"
    statusField := "status"
    updatedField := some "updated"
    modifiableKeys := []
    deletedStatus := Value.str "dead"
    concealDeadResources := true }

/-- C6 counterexample: constructing with `updatedField: null` does not
disable stamping.  The constructor coerces the null to `'updated'`
(`options.updatedField || 'updated'`), and `update` on the resulting
service still stamps the `updated` column. -/
theorem claim6_counterexample :
    mkService optsNullUpdated = Except.ok svcNullUpdated ∧
    svcNullUpdated.updatedField = some "updated" ∧
    objGet (update svcNullUpdated [("id", Value.str "a")] none (Value.date 5)).doc "updated"
      = some (Value.date 5) := by
  refine ⟨rfl, rfl, ?_⟩
  decide

/-- C6 (amended): `update` stamps the service's `updatedField` property
onto the row (and `bulkUpdate` onto its data patch) with the current time
before issuing the UPDATE, whenever that property is a non-empty string;
stamping is skipped only when the property itself is null, a state the
constructor never produces — `updatedField: null` in the construction
options falls back to `'updated'` (disabling requires assigning the
property directly, as the repository's tests do). -/
theorem claim6_updated_stamp_amended (svc : Service) (doc : Row) (data : Option Row)
    (criteria0 : Option (JsObj CritValue)) (d : JsObj Value) (qopts : QueryOptions)
    (now : Value) (opts : CrudOptions) :
    (∀ f, svc.updatedField = some f → f.isEmpty = false →
        (update svc doc data now).doc = objSet (applyUpdates svc doc data) f now
        ∧ objGet (update svc doc data now).doc f = some now
        ∧ (bulkUpdate svc criteria0 d qopts now).data = objSet d f now)
    ∧ (svc.updatedField = none →
        (update svc doc data now).doc = applyUpdates svc doc data
        ∧ (bulkUpdate svc criteria0 d qopts now).data = d)
    ∧ (∀ s, mkService opts = Except.ok s → opts.updatedField = none →
        s.updatedField = some "updated") := by
  have hbdata : (bulkUpdate svc criteria0 d qopts now).data = stampDoc svc d now := by
    simp [bulkUpdate]
  refine ⟨?_, ?_, ?_⟩
  · intro f hf hne
    have hdoc : (update svc doc data now).doc = objSet (applyUpdates svc doc data) f now := by
      rw [update_doc_eq]
      simp [stampDoc, hf, hne]
    refine ⟨hdoc, ?_, ?_⟩
    · rw [hdoc]
      exact objGet_objSet_self _ f now
    · rw [hbdata]
      simp [stampDoc, hf, hne]
  · intro hf
    constructor
    · rw [update_doc_eq]
      simp [stampDoc, hf]
    · rw [hbdata]
      simp [stampDoc, hf]
  · intro s hs hnull
    simp only [mkService] at hs
    split_ifs at hs
    all_goals injection hs with h
    all_goals rw [← h]
    all_goals simp [strOr, hnull]

/-- Witness for C6 at the test fixture service and the null-updatedField
construction options. -/
theorem claim6_witness :
    svcTest.updatedField = some "updated" ∧
    ("updated").isEmpty = false ∧
    objGet (update svcTest [("id", Value.str "b")] none (Value.date 7)).doc "updated"
      = some (Value.date 7) ∧
    (bulkUpdate svcTest none [("first_name", Value.str "x")] {} (Value.date 7)).data
      = objSet [("first_name", Value.str "x")] "updated" (Value.date 7) ∧
    optsNullUpdated.updatedField = none ∧
    (∀ s, mkService optsNullUpdated = Except.ok s → s.updatedField = some "updated") := by
  have h := claim6_updated_stamp_amended svcTest [("id", Value.str "b")] none
    none [("first_name", Value.str "x")] {} (Value.date 7) optsNullUpdated
  have h1 := h.1 "updated" rfl (by decide)
  exact ⟨rfl, by decide, h1.2.1, h1.2.2, rfl,
    fun s hs => h.2.2 s hs rfl⟩

theorem retrieve_filter_eq (svc : Service) (id : Value) (opts : QueryOptions)
    (table : List Row) (h : ¬id = Value.null) :
    retrieve svc id opts table
      = (table.filter (fun r =>
          sqlEq (rowGet r svc.idField) id &&
          (if svc.concealDeadResources then sqlNe (rowGet r svc.statusField) svc.deletedStatus
           else true))).head? := by
  simp [retrieve, h]

theorem sqlEq_true_ne_null {a b : Value} (h : sqlEq a b = true) : ¬b = Value.null := by
  intro hb
  rw [hb] at h
  simp [sqlEq] at h

theorem execUpdate_conceals (svc : Service) (sd : JsObj Value) (idv : Value) (n : Nat)
    (table : List Row) (options options' : QueryOptions)
    (hcd : svc.concealDeadResources = true)
    (hsetnd : (sd.map Prod.fst).Nodup)
    (hsetstatus : objGet sd svc.statusField = some svc.deletedStatus)
    (hsetid : objGet sd svc.idField = none) :
    retrieve svc idv options (execUpdate svc ⟨(buildSets sd []).1, (n, idv)⟩ table) = none
    ∧ (execUpdate svc ⟨(buildSets sd []).1, (n, idv)⟩ table).length = table.length
    ∧ ((∃ r ∈ table, sqlEq (rowGet r svc.idField) idv = true) →
        ∃ rr, retrieve (noConceal svc) idv options'
            (execUpdate svc ⟨(buildSets sd []).1, (n, idv)⟩ table) = some rr
          ∧ rowGet rr svc.statusField = svc.deletedStatus) := by
  have hmerge_status : ∀ r : Row, rowGet (objMerge r sd) svc.statusField = svc.deletedStatus := by
    intro r
    rw [rowGet, objMerge_objGet_mem sd r _ _ hsetnd hsetstatus]
    rfl
  have hmerge_id : ∀ r : Row, rowGet (objMerge r sd) svc.idField = rowGet r svc.idField := by
    intro r
    rw [rowGet, rowGet, objMerge_objGet_not_mem sd r _ ((objGet_eq_none_iff sd _).mp hsetid)]
  have hexec : execUpdate svc ⟨(buildSets sd []).1, (n, idv)⟩ table
      = table.map (fun r => if sqlEq (rowGet r svc.idField) idv then objMerge r sd else r) := by
    rw [execUpdate]
    congr 1
    funext r
    rw [setRow_eq_objMerge sd r []]
  refine ⟨?_, by rw [hexec]; simp, ?_⟩
  · by_cases hnull : idv = Value.null
    · simp [retrieve, hnull]
    · rw [retrieve_filter_eq svc idv options _ hnull, hexec]
      have hall : ∀ r' ∈ table.map
          (fun r => if sqlEq (rowGet r svc.idField) idv then objMerge r sd else r),
          (sqlEq (rowGet r' svc.idField) idv &&
            (if svc.concealDeadResources then sqlNe (rowGet r' svc.statusField) svc.deletedStatus
             else true)) = false := by
        intro r' hr'
        obtain ⟨r, hr, hr'eq⟩ := List.mem_map.mp hr'
        rw [hcd]
        simp only [if_pos]
        by_cases hm : sqlEq (rowGet r svc.idField) idv = true
        · rw [if_pos hm] at hr'eq
          rw [← hr'eq, hmerge_status r, sqlNe_self, Bool.and_false]
        · rw [if_neg hm] at hr'eq
          rw [← hr'eq]
          simp only [Bool.not_eq_true] at hm
          rw [hm, Bool.false_and]
      have hnil : (table.map
          (fun r => if sqlEq (rowGet r svc.idField) idv then objMerge r sd else r)).filter
          (fun r => sqlEq (rowGet r svc.idField) idv &&
            (if svc.concealDeadResources then sqlNe (rowGet r svc.statusField) svc.deletedStatus
             else true)) = [] := by
        refine List.filter_eq_nil_iff.mpr ?_
        intro a ha
        rw [hall a ha]
        simp
      rw [hnil]
      rfl
  · intro hex
    obtain ⟨r, hr, hsq⟩ := hex
    have hnull : ¬idv = Value.null := sqlEq_true_ne_null hsq
    have hretr : retrieve (noConceal svc) idv options'
        (execUpdate svc ⟨(buildSets sd []).1, (n, idv)⟩ table)
        = ((table.map (fun r => if sqlEq (rowGet r svc.idField) idv then objMerge r sd else r)).filter
            (fun r => sqlEq (rowGet r svc.idField) idv)).head? := by
      rw [retrieve_filter_eq _ _ _ _ hnull, hexec]
      simp [noConceal]
    rw [hretr]
    have hmem : objMerge r sd ∈ table.map
        (fun r => if sqlEq (rowGet r svc.idField) idv then objMerge r sd else r) :=
      List.mem_map.mpr ⟨r, hr, by rw [if_pos hsq]⟩
    have hp : sqlEq (rowGet (objMerge r sd) svc.idField) idv = true := by
      rw [hmerge_id r]
      exact hsq
    have hmemf : objMerge r sd ∈ (table.map
        (fun r => if sqlEq (rowGet r svc.idField) idv then objMerge r sd else r)).filter
        (fun r => sqlEq (rowGet r svc.idField) idv) :=
      List.mem_filter.mpr ⟨hmem, hp⟩
    cases hfil : (table.map
        (fun r => if sqlEq (rowGet r svc.idField) idv then objMerge r sd else r)).filter
        (fun r => sqlEq (rowGet r svc.idField) idv) with
    | nil =>
        rw [hfil] at hmemf
        exact absurd hmemf (List.not_mem_nil _)
    | cons a t =>
        refine ⟨a, rfl, ?_⟩
        have ha : a ∈ (table.map
            (fun r => if sqlEq (rowGet r svc.idField) idv then objMerge r sd else r)).filter
            (fun r => sqlEq (rowGet r svc.idField) idv) := by
          rw [hfil]
          exact List.mem_cons_self a t
        obtain ⟨haT, hpa⟩ := List.mem_filter.mp ha
        obtain ⟨r0, hr0, ha2⟩ := List.mem_map.mp haT
        by_cases hm0 : sqlEq (rowGet r0 svc.idField) idv = true
        · rw [if_pos hm0] at ha2
          rw [← ha2]
          exact hmerge_status r0
        · rw [if_neg hm0] at ha2
          exfalso
          apply hm0
          rw [← ha2] at hpa
          exact hpa

/-- C2 counterexample: `retrieve` ignores the `conceal` option.  After
`delete` of the row with id `"a"` (which issues exactly the UPDATE below),
`retrieve("a", \x7b conceal: false \x7d)` on the updated table still returns
null, because the source destructures only `client` from retrieve's
options and always applies the service-level concealment. -/
theorem claim2_counterexample :
    (deleteRow svcTest [("id", Value.str "a"), ("status", Value.str "active")]
        (Value.date 5)).result
      = Except.ok
        { sets := [("status", 1, Value.str "dead"), ("updated", 2, Value.date 5)]
          idParam := (3, Value.str "a") }
    ∧ retrieve svcTest (Value.str "a") { conceal := some false }
        (execUpdate svcTest
          { sets := [("status", 1, Value.str "dead"), ("updated", 2, Value.date 5)]
            idParam := (3, Value.str "a") }
          [[("id", Value.str "a"), ("status", Value.str "active")]]) = none := by
  refine ⟨rfl, ?_⟩
  decide

/-- C2 (amended): `delete(row)` issues an UPDATE that sets the status
column to the deleted status (and stamps the updated column) on every row
matching the id — it never physically removes a row, so the table keeps
its length.  Afterwards `retrieve(row.id)` returns null under the
service's concealment whatever options are passed (including
`conceal: false`, which retrieve ignores); the tombstoned row is still
readable, with its status set to the deleted value, by a service whose
`concealDeadResources` is off. -/
theorem claim2_delete_conceals_amended (svc : Service) (doc : Row) (table : List Row)
    (now idv : Value) (options options' : QueryOptions)
    (hcd : svc.concealDeadResources = true)
    (hnd : (doc.map Prod.fst).Nodup)
    (hid : objGet doc svc.idField = some idv)
    (hsid : svc.statusField ≠ svc.idField)
    (hupd : ∀ f, svc.updatedField = some f → f ≠ svc.idField ∧ f ≠ svc.statusField) :
    ∃ st : UpdateStatement, (deleteRow svc doc now).result = Except.ok st
      ∧ st.idParam.2 = idv
      ∧ retrieve svc idv options (execUpdate svc st table) = none
      ∧ (execUpdate svc st table).length = table.length
      ∧ ((∃ r ∈ table, sqlEq (rowGet r svc.idField) idv = true) →
          ∃ rr, retrieve (noConceal svc) idv options' (execUpdate svc st table) = some rr
            ∧ rowGet rr svc.statusField = svc.deletedStatus) := by
  have hupd1 : ∀ f, svc.updatedField = some f → f ≠ svc.idField := fun f hf => (hupd f hf).1
  have hupd2 : ∀ f, svc.updatedField = some f → f ≠ svc.statusField := fun f hf => (hupd f hf).2
  have h2id : objGet (stampDoc svc (objSet doc svc.statusField svc.deletedStatus) now)
      svc.idField = some idv := by
    rw [stampDoc_objGet_ne svc _ now svc.idField hupd1,
      objGet_objSet_ne doc svc.statusField svc.idField svc.deletedStatus (Ne.symm hsid)]
    exact hid
  have hres : (deleteRow svc doc now).result
      = Except.ok
        ⟨(buildSets (objDelete
            (stampDoc svc (objSet doc svc.statusField svc.deletedStatus) now) svc.idField) []).1,
          ((buildSets (objDelete
            (stampDoc svc (objSet doc svc.statusField svc.deletedStatus) now)
              svc.idField) []).2.length + 1, idv)⟩ := by
    simp [deleteRow, update, applyUpdates, h2id]
  have hnd2 : ((stampDoc svc (objSet doc svc.statusField svc.deletedStatus) now).map
      Prod.fst).Nodup :=
    stampDoc_keys_nodup svc _ now (objSet_keys_nodup doc svc.statusField svc.deletedStatus hnd)
  have hsetnd : ((objDelete (stampDoc svc (objSet doc svc.statusField svc.deletedStatus) now)
      svc.idField).map Prod.fst).Nodup :=
    objDelete_keys_nodup _ _ hnd2
  have hsetstatus : objGet (objDelete
      (stampDoc svc (objSet doc svc.statusField svc.deletedStatus) now) svc.idField)
      svc.statusField = some svc.deletedStatus := by
    rw [objGet_objDelete_ne _ _ _ hsid,
      stampDoc_objGet_ne svc _ now svc.statusField hupd2,
      objGet_objSet_self]
  have hsetid : objGet (objDelete
      (stampDoc svc (objSet doc svc.statusField svc.deletedStatus) now) svc.idField)
      svc.idField = none :=
    objGet_objDelete_self _ _
  have hmain := execUpdate_conceals svc
    (objDelete (stampDoc svc (objSet doc svc.statusField svc.deletedStatus) now) svc.idField)
    idv
    ((buildSets (objDelete (stampDoc svc (objSet doc svc.statusField svc.deletedStatus) now)
        svc.idField) []).2.length + 1)
    table options options' hcd hsetnd hsetstatus hsetid
  exact ⟨_, hres, rfl, hmain.1, hmain.2.1, hmain.2.2⟩

/-- Witness for C2 at a concrete one-row table. -/
theorem claim2_witness :
    svcTest.concealDeadResources = true ∧
    (([("id", Value.str "a"), ("status", Value.str "active")] : Row).map Prod.fst).Nodup ∧
    objGet [("id", Value.str "a"), ("status", Value.str "active")] svcTest.idField
      = some (Value.str "a") ∧
    svcTest.statusField ≠ svcTest.idField ∧
    (∀ f, svcTest.updatedField = some f → f ≠ svcTest.idField ∧ f ≠ svcTest.statusField) ∧
    (∃ st : UpdateStatement,
      (deleteRow svcTest [("id", Value.str "a"), ("status", Value.str "active")]
          (Value.date 5)).result = Except.ok st
      ∧ st.idParam.2 = Value.str "a"
      ∧ retrieve svcTest (Value.str "a") {}
          (execUpdate svcTest st [[("id", Value.str "a"), ("status", Value.str "active")]]) = none
      ∧ (execUpdate svcTest st [[("id", Value.str "a"), ("status", Value.str "active")]]).length
          = ([[("id", Value.str "a"), ("status", Value.str "active")]] : List Row).length
      ∧ ((∃ r ∈ ([[("id", Value.str "a"), ("status", Value.str "active")]] : List Row),
            sqlEq (rowGet r svcTest.idField) (Value.str "a") = true) →
          ∃ rr, retrieve (noConceal svcTest) (Value.str "a") {}
              (execUpdate svcTest st [[("id", Value.str "a"), ("status", Value.str "active")]])
              = some rr
            ∧ rowGet rr svcTest.statusField = svcTest.deletedStatus)) := by
  have hupd : ∀ f, svcTest.updatedField = some f →
      f ≠ svcTest.idField ∧ f ≠ svcTest.statusField := by
    intro f hf
    injection hf with h
    rw [← h]
    exact ⟨by decide, by decide⟩
  exact ⟨rfl, by decide, by decide, by decide, hupd,
    claim2_delete_conceals_amended svcTest
      [("id", Value.str "a"), ("status", Value.str "active")]
      [[("id", Value.str "a"), ("status", Value.str "active")]]
      (Value.date 5) (Value.str "a") {} {} rfl (by decide) (by decide) (by decide) hupd⟩

end OkanjoPg
